import Mathlib

/-!
# A verification development for the orca scripting language core

Shallow embedding of the parser (`src/parser.rs`) and the tree-walking
evaluator (`src/ast/evaluator.rs`) of the orca repository, together with
theorems checking the natural-language specification against the code.

Modelling conventions:
* Rust `f64` numbers are modelled as `ℚ`.  Every numeric claim below uses
  only small integer values on which IEEE-754 double arithmetic is exact,
  so the rational model agrees with the source on all inputs exercised.
* Rust panics are modelled as `Except.error`; each panic site in the
  source gets its own error constructor.
* The token stream produced by the lexer (an external collaborator, out of
  scope per the spec) is modelled as a `List TokenType`; an exhausted list
  yields `EOF` forever, matching the lexer contract.
* Recursive parser and evaluator functions take a fuel parameter and fail
  with a dedicated error when it runs out; theorems quantify over fuel.
-/

namespace Orca

/-- Token vocabulary, following `TokenType` as used by `src/parser.rs` and
`src/ast/evaluator.rs` (the lexer itself is an external collaborator). -/
inductive TokenType where
  | Decimal (value : ℚ)
  | Integer (value : ℤ)
  | Identifier (name : String)
  | Plus
  | Minus
  | Asterisk
  | ForwardSlash
  | Carat
  | Equals
  | DoubleEquals
  | GreaterThan
  | LessThan
  | GreaterThanOrEqualTo
  | LessThanOrEqualTo
  | OpenParenthesis
  | CloseParenthesis
  | OpenBraces
  | CloseBraces
  | Comma
  | Newline
  | EOF
  deriving DecidableEq, Repr

mutual

/-- AST nodes, following `ASTNode` in `src/ast/ast.rs` as constructed by
`src/parser.rs` and consumed by `src/ast/evaluator.rs`: `Program` and
function bodies hold statement lists, a `FunctionCall` holds `Symbol`
arguments, a `VariableExpression` holds its right-hand side.  The reserved
variants never constructed by the parser (`BlockStatement`, `String`,
`Command`) are kept as dead variants. -/
inductive ASTNode where
  | Program (body : List ASTNode)
  | FunctionExpression (name : String) (body : List ASTNode) (args : List String)
  | FunctionCall (name : String) (args : List Symbol)
  | ReturnExpression (expr : ASTNode)
  | VariableExpression (name : String) (value : ASTNode)
  | BinaryExpression (left : ASTNode) (operator : TokenType) (right : ASTNode)
  | UnaryExpression (expr : ASTNode)
  | IfStatement (condition : ASTNode) (consequence : List ASTNode)
      (alternative : Option (List ASTNode))
  | Variable (name : String)
  | Number (value : ℚ)
  | Boolean (value : Bool)
  | StringNode (value : String)
  | BlockStatement (body : List ASTNode)
  | Command (body : List ASTNode)

/-- Runtime values.  Modelled from the spec: `src/ast/symbol.rs` is not
under `src/`; §3 of the spec fixes the variants (Number, Boolean, a
function value carrying its definition, and a transient unresolved
variable reference), matching every use in `src/ast/evaluator.rs` and
`src/parser.rs`.  `Function` carries the fields of a `FunctionExpression`. -/
inductive Symbol where
  | Number (value : ℚ)
  | Boolean (value : Bool)
  | Function (name : String) (body : List ASTNode) (args : List String)
  | Variable (name : String)

end

/-- The comparison operator set: the operators routed to
`ASTEvaluator::compare` by `eval_binary_expression`. -/
def isComparisonOp (op : TokenType) : Bool :=
  match op with
  | .DoubleEquals | .GreaterThan | .LessThan
  | .GreaterThanOrEqualTo | .LessThanOrEqualTo => true
  | _ => false

mutual

/-- `true` iff the node contains no `IfStatement` and no `BinaryExpression`
whose operator is a comparison operator, anywhere (statement lists and
function bodies stored in symbols included). -/
def goodNode : ASTNode → Bool
  | .Program body => goodList body
  | .FunctionExpression _ body _ => goodList body
  | .FunctionCall _ args => goodSymbolList args
  | .ReturnExpression e => goodNode e
  | .VariableExpression _ v => goodNode v
  | .BinaryExpression l op r => !isComparisonOp op && goodNode l && goodNode r
  | .UnaryExpression e => goodNode e
  | .IfStatement _ _ _ => false
  | .Variable _ => true
  | .Number _ => true
  | .Boolean _ => true
  | .StringNode _ => true
  | .BlockStatement body => goodList body
  | .Command body => goodList body

def goodList : List ASTNode → Bool
  | [] => true
  | n :: rest => goodNode n && goodList rest

def goodSymbol : Symbol → Bool
  | .Function _ body _ => goodList body
  | _ => true

def goodSymbolList : List Symbol → Bool
  | [] => true
  | s :: rest => goodSymbol s && goodSymbolList rest

end

/-! ## Parser (`src/parser.rs`)

The parser state `Parser { lexer, curr_token }` is modelled as the list of
tokens not yet consumed: the head is `curr_token`, and `lexer.lookahead(0)`
peeks the element after the head.  An exhausted list keeps yielding `EOF`.
Each parser function returns the produced value together with the remaining
token list, or a `ParseErr` where the source panics. -/

/-- Parser panic sites of `src/parser.rs`, one constructor per message. -/
inductive ParseErr where
  | eof
  | unexpectedToken
  | expectedNumber
  | expectedOperator
  | expectedIdentifier
  | invalidPrefix
  | invalidFunctionArgument
  | outOfFuel
  deriving DecidableEq, Repr

/-- The current token (`self.curr_token`); `EOF` once the stream is done. -/
def currTok (ts : List TokenType) : TokenType := ts.headD .EOF

/-- `self.lexer.lookahead(0)`: the token after the current one. -/
def lookahead0 (ts : List TokenType) : TokenType := ts.tail.headD .EOF

/-- `Parser::eat`: checks for `EOF`, then that the current token matches the
expected one, and consumes it, returning the consumed token. -/
def eat (expected : TokenType) (ts : List TokenType) :
    Except ParseErr (TokenType × List TokenType) :=
  if currTok ts = .EOF then .error .eof
  else if expected ≠ currTok ts then .error .unexpectedToken
  else .ok (currTok ts, ts.tail)

/-- `Parser::eat_number`: accepts a `Decimal` or `Integer` token. -/
def eat_number (ts : List TokenType) :
    Except ParseErr (TokenType × List TokenType) :=
  match currTok ts with
  | .Decimal _ => eat (currTok ts) ts
  | .Integer _ => eat (currTok ts) ts
  | _ => .error .expectedNumber

/-- `Parser::eat_operator`: accepts one of `+ - * / ^`. -/
def eat_operator (ts : List TokenType) :
    Except ParseErr (TokenType × List TokenType) :=
  match currTok ts with
  | .Plus | .Minus | .Asterisk | .ForwardSlash | .Carat => eat (currTok ts) ts
  | _ => .error .expectedOperator

/-- `Parser::eat_identifier`: accepts an identifier, returning its text. -/
def eat_identifier (ts : List TokenType) :
    Except ParseErr (String × List TokenType) :=
  match currTok ts with
  | .Identifier ident =>
      match eat (.Identifier ident) ts with
      | .ok (_, ts') => .ok (ident, ts')
      | .error e => .error e
  | _ => .error .expectedIdentifier

/-- `Parser::get_precedence`: `^`=5, `*`,`/`=3, `+`,`-`=2, all else 0. -/
def get_precedence (operator : TokenType) : Nat :=
  match operator with
  | .Carat => 5
  | .Asterisk => 3
  | .ForwardSlash => 3
  | .Plus => 2
  | .Minus => 2
  | _ => 0

/-- `Parser::variable_statement`: a bare identifier as a variable node. -/
def variable_statement (ts : List TokenType) :
    Except ParseErr (ASTNode × List TokenType) :=
  match eat_identifier ts with
  | .ok (name, ts') => .ok (.Variable name, ts')
  | .error e => .error e

mutual

/-- `Parser::program`: `program = statement_list`. -/
def program (fuel : Nat) (ts : List TokenType) :
    Except ParseErr (ASTNode × List TokenType) :=
  match fuel with
  | 0 => .error .outOfFuel
  | n + 1 => do
    let (statements, ts) ← statement_list n ts
    .ok (.Program statements, ts)

/-- `Parser::statement_list`: the while loop collecting statements until
`EOF` or `}`, eating a `Newline` after each statement unless at `EOF`. -/
def statement_list (fuel : Nat) (ts : List TokenType) :
    Except ParseErr (List ASTNode × List TokenType) :=
  match fuel with
  | 0 => .error .outOfFuel
  | n + 1 =>
    if currTok ts ≠ .EOF ∧ currTok ts ≠ .CloseBraces then do
      let (s, ts) ← statement n ts
      let ts ← (if currTok ts ≠ .EOF then do
          let (_, ts) ← eat .Newline ts
          pure ts
        else pure ts)
      let (rest, ts) ← statement_list n ts
      .ok (s :: rest, ts)
    else
      .ok ([], ts)
termination_by structural fuel

/-- `Parser::statement`: assignment on lookahead `=`, function definition on
keyword `func`, otherwise an expression at precedence floor 0. -/
def statement (fuel : Nat) (ts : List TokenType) :
    Except ParseErr (ASTNode × List TokenType) :=
  match fuel with
  | 0 => .error .outOfFuel
  | n + 1 =>
    if lookahead0 ts = .Equals then variable_expression n ts
    else if currTok ts = .Identifier "func" then function_expression n ts
    else expression n 0 ts
termination_by structural fuel

/-- `Parser::expression`: `expression = prefix (infix)*`, climbing while the
current token's precedence exceeds the floor. -/
def expression (fuel : Nat) (precedence : Nat) (ts : List TokenType) :
    Except ParseErr (ASTNode × List TokenType) :=
  match fuel with
  | 0 => .error .outOfFuel
  | n + 1 => do
    let (left, ts) ← pPrefix n ts
    expressionLoop n precedence left ts
termination_by structural fuel

/-- The while loop of `Parser::expression`. -/
def expressionLoop (fuel : Nat) (precedence : Nat) (left : ASTNode)
    (ts : List TokenType) : Except ParseErr (ASTNode × List TokenType) :=
  match fuel with
  | 0 => .error .outOfFuel
  | n + 1 =>
    if currTok ts ≠ .EOF ∧ currTok ts ≠ .Newline ∧
        precedence < get_precedence (currTok ts) then do
      let (left', ts') ← pInfix n left (currTok ts) ts
      expressionLoop n precedence left' ts'
    else
      .ok (left, ts)
termination_by structural fuel

/-- `Parser::variable_expression`: `identifier "=" expression`. -/
def variable_expression (fuel : Nat) (ts : List TokenType) :
    Except ParseErr (ASTNode × List TokenType) :=
  match fuel with
  | 0 => .error .outOfFuel
  | n + 1 => do
    let (name, ts) ← eat_identifier ts
    let (_, ts) ← eat .Equals ts
    let (e, ts) ← expression n 0 ts
    .ok (.VariableExpression name e, ts)

/-- `Parser::function_expression`:
`"func" identifier "(" args ")" "{" NEWLINE statement_list "}"`. -/
def function_expression (fuel : Nat) (ts : List TokenType) :
    Except ParseErr (ASTNode × List TokenType) :=
  match fuel with
  | 0 => .error .outOfFuel
  | n + 1 => do
    let (_, ts) ← eat (.Identifier "func") ts
    let (name, ts) ← eat_identifier ts
    let (_, ts) ← eat .OpenParenthesis ts
    let (func_args, ts) ← function_expression_args n ts
    let (_, ts) ← eat .CloseParenthesis ts
    let (_, ts) ← eat .OpenBraces ts
    let (_, ts) ← eat .Newline ts
    let (body, ts) ← statement_list n ts
    let (_, ts) ← eat .CloseBraces ts
    .ok (.FunctionExpression name body func_args, ts)
termination_by structural fuel

/-- `Parser::function_expression_args`: empty on an immediate `)`, else a
comma-separated identifier list. -/
def function_expression_args (fuel : Nat) (ts : List TokenType) :
    Except ParseErr (List String × List TokenType) :=
  match fuel with
  | 0 => .error .outOfFuel
  | n + 1 =>
    if currTok ts = .CloseParenthesis then .ok ([], ts)
    else function_expression_args_loop n ts

/-- The loop of `Parser::function_expression_args`. -/
def function_expression_args_loop (fuel : Nat) (ts : List TokenType) :
    Except ParseErr (List String × List TokenType) :=
  match fuel with
  | 0 => .error .outOfFuel
  | n + 1 => do
    let (a, ts) ← eat_identifier ts
    if currTok ts = .CloseParenthesis then .ok ([a], ts)
    else do
      let (_, ts) ← eat .Comma ts
      let (rest, ts) ← function_expression_args_loop n ts
      .ok (a :: rest, ts)
termination_by structural fuel

/-- `Parser::prefix`: parenthesized expression, unary minus, `return`,
function call or variable on an identifier, otherwise a number literal. -/
def pPrefix (fuel : Nat) (ts : List TokenType) :
    Except ParseErr (ASTNode × List TokenType) :=
  match fuel with
  | 0 => .error .outOfFuel
  | n + 1 =>
    match currTok ts with
    | .OpenParenthesis => parenthesized_expression n ts
    | .Minus => unary_expression n ts
    | .Identifier ident =>
        if ident = "return" then return_expression n ts
        else if lookahead0 ts = .OpenParenthesis then function_call n ts
        else variable_statement ts
    | _ => do
        let (t, ts) ← eat_number ts
        match t with
        | .Decimal value => .ok (.Number value, ts)
        | .Integer value => .ok (.Number (value : ℚ), ts)
        | _ => .error .invalidPrefix
termination_by structural fuel

/-- `Parser::infix`: eats the operator and recurses into the right-hand
operand with precedence `(operator precedence − 1)` for `^` and the
operator's own precedence otherwise. -/
def pInfix (fuel : Nat) (left : ASTNode) (operator : TokenType)
    (ts : List TokenType) : Except ParseErr (ASTNode × List TokenType) :=
  match fuel with
  | 0 => .error .outOfFuel
  | n + 1 => do
    let (_, ts) ← eat_operator ts
    let operator_precedence := get_precedence operator
    let precedence :=
      if operator = .Carat then operator_precedence - 1 else operator_precedence
    let (right, ts) ← expression n precedence ts
    .ok (.BinaryExpression left operator right, ts)
termination_by structural fuel

/-- `Parser::parenthesized_expression`: `"(" expression ")"`. -/
def parenthesized_expression (fuel : Nat) (ts : List TokenType) :
    Except ParseErr (ASTNode × List TokenType) :=
  match fuel with
  | 0 => .error .outOfFuel
  | n + 1 => do
    let (_, ts) ← eat .OpenParenthesis ts
    let (e, ts) ← expression n 0 ts
    let (_, ts) ← eat .CloseParenthesis ts
    .ok (e, ts)
termination_by structural fuel

/-- `Parser::return_expression`: `"return" expression`. -/
def return_expression (fuel : Nat) (ts : List TokenType) :
    Except ParseErr (ASTNode × List TokenType) :=
  match fuel with
  | 0 => .error .outOfFuel
  | n + 1 => do
    let (_, ts) ← eat (.Identifier "return") ts
    let (e, ts) ← expression n 0 ts
    .ok (.ReturnExpression e, ts)
termination_by structural fuel

/-- `Parser::function_call`: `identifier "(" function_call_args ")"`. -/
def function_call (fuel : Nat) (ts : List TokenType) :
    Except ParseErr (ASTNode × List TokenType) :=
  match fuel with
  | 0 => .error .outOfFuel
  | n + 1 => do
    let (fname, ts) ← eat_identifier ts
    let (_, ts) ← eat .OpenParenthesis ts
    let (args, ts) ← function_call_args n ts
    let (_, ts) ← eat .CloseParenthesis ts
    .ok (.FunctionCall fname args, ts)

/-- `Parser::function_call_args`: empty on an immediate `)`, else a
comma-separated list of identifiers or number literals. -/
def function_call_args (fuel : Nat) (ts : List TokenType) :
    Except ParseErr (List Symbol × List TokenType) :=
  match fuel with
  | 0 => .error .outOfFuel
  | n + 1 =>
    if currTok ts = .CloseParenthesis then .ok ([], ts)
    else function_call_args_loop n ts

/-- The loop of `Parser::function_call_args`. -/
def function_call_args_loop (fuel : Nat) (ts : List TokenType) :
    Except ParseErr (List Symbol × List TokenType) :=
  match fuel with
  | 0 => .error .outOfFuel
  | n + 1 => do
    let (arg, ts) ← (match currTok ts with
      | .Identifier _ => do
          let (name, ts) ← eat_identifier ts
          pure (Symbol.Variable name, ts)
      | _ => do
          let (t, ts) ← eat_number ts
          match t with
          | .Decimal value => pure (Symbol.Number value, ts)
          | .Integer value => pure (Symbol.Number (value : ℚ), ts)
          | _ => .error .invalidFunctionArgument)
    if currTok ts = .CloseParenthesis then .ok ([arg], ts)
    else do
      let (_, ts) ← eat .Comma ts
      let (rest, ts) ← function_call_args_loop n ts
      .ok (arg :: rest, ts)
termination_by structural fuel

/-- `Parser::unary_expression`: `"-" expression` at precedence floor 4. -/
def unary_expression (fuel : Nat) (ts : List TokenType) :
    Except ParseErr (ASTNode × List TokenType) :=
  match fuel with
  | 0 => .error .outOfFuel
  | n + 1 => do
    let (_, ts) ← eat .Minus ts
    let (e, ts) ← expression n 4 ts
    .ok (.UnaryExpression e, ts)
termination_by structural fuel

end

/-! ## Environment (scope stack)

Modelled from the spec: `src/ast/symbol_table.rs` is not under `src/`;
§4.2 of the spec fixes the contract (`push_scope`, `pop_scope`, `insert`
into the innermost scope only, `get` searching innermost-to-outermost and
failing with an unbound-name error, `pop_scope` failing fatally if the
global scope would be removed).  The scope stack is a list with the
innermost scope at the head and the global scope last; scope labels are
diagnostic only and are not modelled. -/

/-- Evaluator panic sites of `src/ast/evaluator.rs` plus the spec-modelled
symbol-table failures, one constructor per site. -/
inductive EvalErr where
  | unboundName (name : String)
  | arity (name : String)
  | mathType
  | invalidOperator
  | compareBooleans
  | typeMismatch
  | expectedComparison
  | popGlobalScope
  | outOfFuel
  deriving DecidableEq, Repr

/-- One scope frame: a name-to-value mapping with unique keys. -/
abbrev Scope := List (String × Symbol)

/-- The scope stack; head is the innermost scope, last is the global one. -/
abbrev SymbolTable := List Scope

/-- Lookup in a single scope frame. -/
def scopeGet (s : Scope) (name : String) : Option Symbol :=
  (s.find? (fun p => p.1 = name)).map (fun p => p.2)

/-- Insert-or-overwrite in a single scope frame, keeping keys unique. -/
def scopeInsert (s : Scope) (name : String) (value : Symbol) : Scope :=
  (name, value) :: s.filter (fun p => p.1 ≠ name)

/-- Modelled from the spec: `SymbolTable::get` searches innermost to
outermost and fails with an unbound-name error when no scope has the name. -/
def tableGet (st : SymbolTable) (name : String) : Except EvalErr Symbol :=
  match st with
  | [] => .error (.unboundName name)
  | s :: rest =>
    match scopeGet s name with
    | some v => .ok v
    | none => tableGet rest name

/-- Modelled from the spec: `SymbolTable::insert` writes to the innermost
scope only. -/
def tableInsert (st : SymbolTable) (name : String) (value : Symbol) :
    SymbolTable :=
  match st with
  | [] => []
  | s :: rest => scopeInsert s name value :: rest

/-- Modelled from the spec: `SymbolTable::push_scope` pushes a new empty
scope (the label is diagnostic only). -/
def push_scope (st : SymbolTable) : SymbolTable := [] :: st

/-- Modelled from the spec: `SymbolTable::pop_scope` removes the innermost
scope and fails fatally if the global scope would be removed. -/
def pop_scope (st : SymbolTable) : Except EvalErr SymbolTable :=
  match st with
  | [] => .error .popGlobalScope
  | [_] => .error .popGlobalScope
  | _ :: rest => .ok rest

/-- `SymbolTable::new`: a single (global) scope. -/
def SymbolTable.new : SymbolTable := [[]]

/-! ## Evaluator (`src/ast/evaluator.rs`) -/

/-- `f64::powf` on the rational model: exact for the integer exponents every
claim below uses; a fractional exponent (whose IEEE-754 result is in
general irrational, hence not representable in `ℚ`) is mapped to 0 and is
exercised by no claim. -/
def powf (l r : ℚ) : ℚ := if r.den = 1 then l ^ r.num else 0

/-- The truthiness rule of `ASTEvaluator::eval_if_statement`: a `Some`
number is truthy iff nonzero, a `Some` boolean iff `true`, and any other
result (including no value) is falsy. -/
def truthy (res : Option Symbol) : Bool :=
  match res with
  | some (.Number num) => decide (num ≠ 0)
  | some (.Boolean b) => b
  | _ => false

/-- Whether a statement is a top-level `ReturnExpression`, the shape the
body loop of `ASTEvaluator::eval_function_call` matches on. -/
def isReturnStatement (node : ASTNode) : Bool :=
  match node with
  | .ReturnExpression _ => true
  | _ => false

/-- `ASTEvaluator::eval_math_expression`: both operands must be numbers,
then `+ - * /` are rational arithmetic and `^` is `powf`. -/
def eval_math_expression (left : Symbol) (operator : TokenType)
    (right : Symbol) : Except EvalErr Symbol :=
  match left, right with
  | .Number l, .Number r =>
    match operator with
    | .Plus => .ok (.Number (l + r))
    | .Minus => .ok (.Number (l - r))
    | .Asterisk => .ok (.Number (l * r))
    | .ForwardSlash => .ok (.Number (l / r))
    | .Carat => .ok (.Number (powf l r))
    | _ => .error .invalidOperator
  | _, _ => .error .mathType

/-- `ASTEvaluator::compare_number`: the five comparison operators on
numbers. -/
def compare_number (left : ℚ) (operator : TokenType) (right : ℚ) :
    Except EvalErr Symbol :=
  match operator with
  | .DoubleEquals => .ok (.Boolean (left = right))
  | .GreaterThan => .ok (.Boolean (left > right))
  | .LessThan => .ok (.Boolean (left < right))
  | .GreaterThanOrEqualTo => .ok (.Boolean (left ≥ right))
  | .LessThanOrEqualTo => .ok (.Boolean (left ≤ right))
  | _ => .error .expectedComparison

/-- `ASTEvaluator::compare`: numbers dispatch to `compare_number`, booleans
support only `==`, any other combination panics with a type mismatch. -/
def compare (left : Symbol) (operator : TokenType) (right : Symbol) :
    Except EvalErr Symbol :=
  match left, right with
  | .Number ln, .Number rn => compare_number ln operator rn
  | .Boolean lb, .Boolean rb =>
    match operator with
    | .DoubleEquals => .ok (.Boolean (lb = rb))
    | _ => .error .compareBooleans
  | _, _ => .error .typeMismatch

/-- `ASTEvaluator::validate_function_call`: panics when the call supplies
fewer arguments than the function declares parameters. -/
def validate_function_call (callArgs : List Symbol) (fname : String)
    (declArgs : List String) : Except EvalErr Unit :=
  if callArgs.length < declArgs.length then .error (.arity fname)
  else .ok ()

/-- The argument-resolution loop of `ASTEvaluator::push_function`: each
argument paired with a declared parameter is looked up in the caller's
environment when it is a bare variable reference and taken as-is
otherwise. -/
def resolveArgs (st : SymbolTable) :
    List (String × Symbol) → Except EvalErr (List (String × Symbol))
  | [] => .ok []
  | (argName, argValue) :: rest => do
    let value ← (match argValue with
      | .Variable varName => tableGet st varName
      | _ => .ok argValue)
    let resolvedRest ← resolveArgs st rest
    .ok ((argName, value) :: resolvedRest)

/-- `ASTEvaluator::push_function`: resolve the arguments zipped with the
declared parameters against the caller's environment (extra call-site
arguments are dropped by the zip), push the function's scope, and bind
each parameter there. -/
def push_function (st : SymbolTable) (declArgs : List String)
    (callArgs : List Symbol) : Except EvalErr SymbolTable := do
  let args ← resolveArgs st (declArgs.zip callArgs)
  .ok (args.foldl (fun t p => tableInsert t p.1 p.2) (push_scope st))

mutual

/-- `ASTEvaluator::eval_node`: note that `ReturnExpression` (outside the
top level of a function body), `Boolean`, `StringNode`, `BlockStatement`
and `Command` all fall to the catch-all arm and produce no value. -/
def eval_node (fuel : Nat) (st : SymbolTable) (node : ASTNode) :
    Except EvalErr (SymbolTable × Option Symbol) :=
  match fuel with
  | 0 => .error .outOfFuel
  | n + 1 =>
    match node with
    | .Number value => .ok (st, some (.Number value))
    | .BinaryExpression l op r => eval_binary_expression n st l op r
    | .UnaryExpression e => eval_unary_expression n st e
    | .VariableExpression name value => do
        let st' ← eval_variable_statement n st name value
        .ok (st', none)
    | .Variable name => do
        let v ← tableGet st name
        .ok (st, some v)
    | .FunctionExpression name body args =>
        .ok (tableInsert st name (.Function name body args), none)
    | .FunctionCall name args => eval_function_call n st name args
    | .IfStatement condition consequence alternative => do
        let st' ← eval_if_statement n st condition consequence alternative
        .ok (st', none)
    | _ => .ok (st, none)
termination_by structural fuel

/-- `ASTEvaluator::eval_statement_list`: evaluates each statement for its
side effects only. -/
def eval_statement_list (fuel : Nat) (st : SymbolTable)
    (statements : List ASTNode) : Except EvalErr SymbolTable :=
  match fuel with
  | 0 => .error .outOfFuel
  | n + 1 =>
    match statements with
    | [] => .ok st
    | node :: rest => do
        let (st', _) ← eval_node n st node
        eval_statement_list n st' rest
termination_by structural fuel

/-- `ASTEvaluator::eval_if_statement`: a `Some` number is truthy iff
nonzero, a `Some` boolean iff `true`, everything else (including no value)
is falsy; a truthy condition runs the consequence in a pushed scope that is
popped afterwards; the alternative is never consulted. -/
def eval_if_statement (fuel : Nat) (st : SymbolTable) (condition : ASTNode)
    (consequence : List ASTNode) (_alternative : Option (List ASTNode)) :
    Except EvalErr SymbolTable :=
  match fuel with
  | 0 => .error .outOfFuel
  | n + 1 => do
    let (st1, res) ← eval_node n st condition
    let passed : Bool := truthy res
    if passed then do
      let st2 ← eval_statement_list n (push_scope st1) consequence
      pop_scope st2
    else
      .ok st1
termination_by structural fuel

/-- `ASTEvaluator::eval_function_call`: resolve the name (a non-function
binding silently yields no value), validate the arity, push the function
frame, then run the body. -/
def eval_function_call (fuel : Nat) (st : SymbolTable) (name : String)
    (callArgs : List Symbol) : Except EvalErr (SymbolTable × Option Symbol) :=
  match fuel with
  | 0 => .error .outOfFuel
  | n + 1 => do
    let sym ← tableGet st name
    match sym with
    | .Function fname body declArgs => do
        let _ ← validate_function_call callArgs fname declArgs
        let st1 ← push_function st declArgs callArgs
        eval_call_body n st1 body
    | _ => .ok (st, none)
termination_by structural fuel

/-- The body loop of `ASTEvaluator::eval_function_call`: a top-level
`ReturnExpression` evaluates its expression, pops the function scope and
returns; any other statement is evaluated for its side effects; an
exhausted body pops the scope and returns no value. -/
def eval_call_body (fuel : Nat) (st : SymbolTable) (body : List ASTNode) :
    Except EvalErr (SymbolTable × Option Symbol) :=
  match fuel with
  | 0 => .error .outOfFuel
  | n + 1 =>
    match body with
    | [] => do
        let st' ← pop_scope st
        .ok (st', none)
    | line :: rest =>
      match line with
      | .ReturnExpression e => do
          let (st', res) ← eval_node n st e
          let st'' ← pop_scope st'
          .ok (st'', res)
      | _ => do
          let (st', _) ← eval_node n st line
          eval_call_body n st' rest
termination_by structural fuel

/-- `ASTEvaluator::eval_variable_statement`: the binding is created only
when the right-hand side produced a value. -/
def eval_variable_statement (fuel : Nat) (st : SymbolTable) (name : String)
    (value : ASTNode) : Except EvalErr SymbolTable :=
  match fuel with
  | 0 => .error .outOfFuel
  | n + 1 => do
    let (st', res) ← eval_node n st value
    match res with
    | some v => .ok (tableInsert st' name v)
    | none => .ok st'
termination_by structural fuel

/-- `ASTEvaluator::eval_unary_expression`: negates a number, silently
yields no value on anything else. -/
def eval_unary_expression (fuel : Nat) (st : SymbolTable) (node : ASTNode) :
    Except EvalErr (SymbolTable × Option Symbol) :=
  match fuel with
  | 0 => .error .outOfFuel
  | n + 1 => do
    let (st', res) ← eval_node n st node
    match res with
    | none => .ok (st', none)
    | some sym =>
      match sym with
      | .Number num => .ok (st', some (.Number (-num)))
      | _ => .ok (st', none)
termination_by structural fuel

/-- `ASTEvaluator::eval_binary_expression`: either operand failing to
produce a value short-circuits to no value; comparison operators dispatch
to `compare`, everything else to `eval_math_expression`. -/
def eval_binary_expression (fuel : Nat) (st : SymbolTable) (left : ASTNode)
    (operator : TokenType) (right : ASTNode) :
    Except EvalErr (SymbolTable × Option Symbol) :=
  match fuel with
  | 0 => .error .outOfFuel
  | n + 1 => do
    let (st1, leftRes) ← eval_node n st left
    match leftRes with
    | none => .ok (st1, none)
    | some leftSym => do
      let (st2, rightRes) ← eval_node n st1 right
      match rightRes with
      | none => .ok (st2, none)
      | some rightSym => do
        let result ←
          (if isComparisonOp operator then compare leftSym operator rightSym
           else eval_math_expression leftSym operator rightSym)
        .ok (st2, some result)
termination_by structural fuel

/-- The result-collecting loop of `ASTEvaluator::eval`. -/
def evalLines (fuel : Nat) (st : SymbolTable) (lines : List ASTNode) :
    Except EvalErr (SymbolTable × List (Option Symbol)) :=
  match fuel with
  | 0 => .error .outOfFuel
  | n + 1 =>
    match lines with
    | [] => .ok (st, [])
    | line :: rest => do
        let (st', v) ← eval_node n st line
        let (st'', vs) ← evalLines n st' rest
        .ok (st'', v :: vs)
termination_by structural fuel

end

/-- `ASTEvaluator::eval`: one optional value per top-level statement of a
`Program`; any other root yields an empty result list. -/
def eval (fuel : Nat) (st : SymbolTable) (programNode : ASTNode) :
    Except EvalErr (SymbolTable × List (Option Symbol)) :=
  match programNode with
  | .Program root => evalLines fuel st root
  | _ => .ok (st, [])

/-- The driver pipeline of the repository's tests: parse a token stream,
then evaluate the program with a fresh evaluator. -/
def parseAndEval (fuel : Nat) (ts : List TokenType) :
    Except ParseErr (Except EvalErr (List (Option Symbol))) :=
  match program fuel ts with
  | .error e => .error e
  | .ok (ast, _) =>
    .ok (match eval fuel SymbolTable.new ast with
      | .error e => .error e
      | .ok (_, vs) => .ok vs)

/-! ## Helper lemmas -/

theorem exceptBind_ok {α β ε : Type} (a : α) (f : α → Except ε β) :
    Except.bind (Except.ok a) f = f a := rfl

theorem exceptBind_err {α β ε : Type} (e : ε) (f : α → Except ε β) :
    Except.bind (Except.error e) f = Except.error e := rfl

theorem exceptPure {α ε : Type} (a : α) :
    (Except.pure a : Except ε α) = Except.ok a := rfl

/-! ## Computation lemmas for the parser

Small step lemmas used to drive concrete and semi-concrete parses; each
one records what a single parser function does on a token-list shape. -/

theorem currTok_cons (t : TokenType) (rest : List TokenType) :
    currTok (t :: rest) = t := rfl

theorem currTok_nil : currTok [] = .EOF := rfl

theorem lookahead0_cons (t u : TokenType) (rest : List TokenType) :
    lookahead0 (t :: u :: rest) = u := rfl

theorem lookahead0_single (t : TokenType) : lookahead0 [t] = .EOF := rfl

theorem lookahead0_nil : lookahead0 [] = .EOF := rfl

theorem eat_self (t : TokenType) (rest : List TokenType) (h : t ≠ .EOF) :
    eat t (t :: rest) = .ok (t, rest) := by
  simp [eat, currTok, h]

theorem eat_number_decimal (v : ℚ) (rest : List TokenType) :
    eat_number (.Decimal v :: rest) = .ok (.Decimal v, rest) := by
  simp [eat_number, eat, currTok]

theorem eat_number_integer (v : ℤ) (rest : List TokenType) :
    eat_number (.Integer v :: rest) = .ok (.Integer v, rest) := by
  simp [eat_number, eat, currTok]

theorem eat_identifier_cons (s : String) (rest : List TokenType) :
    eat_identifier (.Identifier s :: rest) = .ok (s, rest) := by
  simp [eat_identifier, eat, currTok]

theorem eat_operator_cons (t : TokenType) (rest : List TokenType)
    (h : get_precedence t ≠ 0) :
    eat_operator (t :: rest) = .ok (t, rest) := by
  cases t <;> simp [get_precedence] at h <;>
    simp [eat_operator, eat, currTok]

theorem variable_statement_cons (s : String) (rest : List TokenType) :
    variable_statement (.Identifier s :: rest) = .ok (.Variable s, rest) := by
  simp [variable_statement, eat_identifier_cons]

theorem pPrefix_decimal (n : Nat) (v : ℚ) (rest : List TokenType) :
    pPrefix (n + 1) (.Decimal v :: rest) = .ok (.Number v, rest) := by
  simp [pPrefix, currTok, eat_number_decimal, exceptBind_ok, bind]

theorem pPrefix_integer (n : Nat) (v : ℤ) (rest : List TokenType) :
    pPrefix (n + 1) (.Integer v :: rest) = .ok (.Number (v : ℚ), rest) := by
  simp [pPrefix, currTok, eat_number_integer, exceptBind_ok, bind]

theorem pPrefix_minus (n : Nat) (rest : List TokenType) :
    pPrefix (n + 1) (.Minus :: rest) = unary_expression n (.Minus :: rest) := rfl

theorem pPrefix_paren (n : Nat) (rest : List TokenType) :
    pPrefix (n + 1) (.OpenParenthesis :: rest)
      = parenthesized_expression n (.OpenParenthesis :: rest) := rfl

theorem expression_succ (n : Nat) (precedence : Nat) (ts : List TokenType) :
    expression (n + 1) precedence ts
      = Except.bind (pPrefix n ts)
          (fun r => expressionLoop n precedence r.1 r.2) := rfl

theorem expressionLoop_stop (n precedence : Nat) (left : ASTNode)
    (ts : List TokenType)
    (h : currTok ts = .EOF ∨ currTok ts = .Newline ∨
      get_precedence (currTok ts) ≤ precedence) :
    expressionLoop (n + 1) precedence left ts = .ok (left, ts) := by
  have hcond : ¬(currTok ts ≠ .EOF ∧ currTok ts ≠ .Newline ∧
      precedence < get_precedence (currTok ts)) := by
    rcases h with h | h | h
    · exact fun hc => hc.1 h
    · exact fun hc => hc.2.1 h
    · exact fun hc => absurd hc.2.2 (Nat.not_lt.mpr h)
  simp only [expressionLoop, if_neg hcond]

theorem expressionLoop_step (n precedence : Nat) (left : ASTNode)
    (ts : List TokenType)
    (h1 : currTok ts ≠ .EOF) (h2 : currTok ts ≠ .Newline)
    (h3 : precedence < get_precedence (currTok ts)) :
    expressionLoop (n + 1) precedence left ts
      = Except.bind (pInfix n left (currTok ts) ts)
          (fun r => expressionLoop n precedence r.1 r.2) := by
  simp only [expressionLoop, if_pos (And.intro h1 (And.intro h2 h3))]
  rfl

theorem pInfix_cons (n : Nat) (left : ASTNode) (op : TokenType)
    (rest : List TokenType) (h : get_precedence op ≠ 0) :
    pInfix (n + 1) left op (op :: rest)
      = Except.bind (expression n
            (if op = .Carat then get_precedence op - 1 else get_precedence op)
            rest)
          (fun r => .ok (.BinaryExpression left op r.1, r.2)) := by
  simp only [pInfix, eat_operator_cons op rest h, exceptBind_ok, bind]

theorem program_succ (n : Nat) (ts : List TokenType) :
    program (n + 1) ts
      = Except.bind (statement_list n ts)
          (fun r => .ok (.Program r.1, r.2)) := rfl

theorem statement_list_nil (n : Nat) (ts : List TokenType)
    (h : currTok ts = .EOF ∨ currTok ts = .CloseBraces) :
    statement_list (n + 1) ts = .ok ([], ts) := by
  have hcond : ¬(currTok ts ≠ .EOF ∧ currTok ts ≠ .CloseBraces) := by
    rcases h with h | h
    · exact fun hc => hc.1 h
    · exact fun hc => hc.2 h
  simp only [statement_list, if_neg hcond]

theorem statement_list_step (n : Nat) (ts : List TokenType)
    (h1 : currTok ts ≠ .EOF) (h2 : currTok ts ≠ .CloseBraces) :
    statement_list (n + 1) ts
      = Except.bind (statement n ts) (fun r =>
          Except.bind
            (if currTok r.2 ≠ .EOF then
              Except.bind (eat .Newline r.2) (fun e => Except.pure e.2)
            else Except.pure r.2)
            (fun ts2 =>
              Except.bind (statement_list n ts2)
                (fun r2 => .ok (r.1 :: r2.1, r2.2)))) := by
  simp only [statement_list, if_pos (And.intro h1 h2)]
  rfl

theorem statement_expr (n : Nat) (ts : List TokenType)
    (h1 : lookahead0 ts ≠ .Equals) (h2 : currTok ts ≠ .Identifier "func") :
    statement (n + 1) ts = expression n 0 ts := by
  simp only [statement, if_neg h1, if_neg h2]

theorem statement_assign (n : Nat) (ts : List TokenType)
    (h : lookahead0 ts = .Equals) :
    statement (n + 1) ts = variable_expression n ts := by
  simp only [statement, if_pos h]

theorem variable_expression_cons (n : Nat) (s : String)
    (rest : List TokenType) :
    variable_expression (n + 1) (.Identifier s :: .Equals :: rest)
      = Except.bind (expression n 0 rest)
          (fun r => .ok (.VariableExpression s r.1, r.2)) := by
  simp only [variable_expression, eat_identifier_cons,
    eat_self .Equals rest (by decide), exceptBind_ok, bind]

theorem unary_expression_cons (n : Nat) (rest : List TokenType) :
    unary_expression (n + 1) (.Minus :: rest)
      = Except.bind (expression n 4 rest)
          (fun r => .ok (.UnaryExpression r.1, r.2)) := by
  simp only [unary_expression, eat_self .Minus rest (by decide),
    exceptBind_ok, bind]

theorem parenthesized_expression_cons (n : Nat) (rest : List TokenType) :
    parenthesized_expression (n + 1) (.OpenParenthesis :: rest)
      = Except.bind (expression n 0 rest)
          (fun r => Except.bind (eat .CloseParenthesis r.2)
            (fun x => .ok (r.1, x.2))) := by
  simp only [parenthesized_expression,
    eat_self .OpenParenthesis rest (by decide), exceptBind_ok, bind]

/-- A statement list holding exactly one statement that consumes the whole
stream: the list ends at end-of-input with no trailing newline needed. -/
theorem statement_list_single (n : Nat) (ts : List TokenType)
    (node : ASTNode)
    (h1 : currTok ts ≠ .EOF) (h2 : currTok ts ≠ .CloseBraces)
    (hstmt : statement (n + 1) ts = .ok (node, [])) :
    statement_list (n + 2) ts = .ok ([node], []) := by
  simp only [statement_list_step (n + 1) ts h1 h2, hstmt, exceptBind_ok,
    currTok_nil, ne_eq, not_true_eq_false, if_false, ite_false, exceptPure,
    statement_list_nil n [] (Or.inl rfl), eq_self_iff_true]

/-- A whole program that is one statement consuming the whole stream. -/
theorem program_single (n : Nat) (ts : List TokenType) (node : ASTNode)
    (h1 : currTok ts ≠ .EOF) (h2 : currTok ts ≠ .CloseBraces)
    (hstmt : statement (n + 1) ts = .ok (node, [])) :
    program (n + 3) ts = .ok (.Program [node], []) := by
  simp only [program_succ, statement_list_single n ts node h1 h2 hstmt,
    exceptBind_ok]

/-- Composition of `program`, `statement_list` and `statement` for a stream
holding a single expression statement. -/
theorem program_single_expr (n : Nat) (ts : List TokenType) (node : ASTNode)
    (hne : currTok ts ≠ .EOF) (hnc : currTok ts ≠ .CloseBraces)
    (hla : lookahead0 ts ≠ .Equals) (hfn : currTok ts ≠ .Identifier "func")
    (hexpr : expression (n + 2) 0 ts = .ok (node, [])) :
    program (n + 5) ts = .ok (.Program [node], []) :=
  program_single (n + 2) ts node hne hnc
    (by rw [statement_expr (n + 2) ts hla hfn]; exact hexpr)

/-! ## Computation lemmas for the evaluator -/

theorem eval_node_number (n : Nat) (st : SymbolTable) (v : ℚ) :
    eval_node (n + 1) st (.Number v) = .ok (st, some (.Number v)) := rfl

theorem eval_node_binary (n : Nat) (st : SymbolTable) (l : ASTNode)
    (op : TokenType) (r : ASTNode) :
    eval_node (n + 1) st (.BinaryExpression l op r)
      = eval_binary_expression n st l op r := rfl

theorem eval_node_unary (n : Nat) (st : SymbolTable) (e : ASTNode) :
    eval_node (n + 1) st (.UnaryExpression e)
      = eval_unary_expression n st e := rfl

theorem eval_node_variable (n : Nat) (st : SymbolTable) (name : String) :
    eval_node (n + 1) st (.Variable name)
      = Except.bind (tableGet st name) (fun v => .ok (st, some v)) := rfl

theorem eval_node_return (n : Nat) (st : SymbolTable) (e : ASTNode) :
    eval_node (n + 1) st (.ReturnExpression e) = .ok (st, none) := rfl

theorem eval_node_function_call (n : Nat) (st : SymbolTable) (name : String)
    (args : List Symbol) :
    eval_node (n + 1) st (.FunctionCall name args)
      = eval_function_call n st name args := rfl

theorem eval_node_if (n : Nat) (st : SymbolTable) (c : ASTNode)
    (cons : List ASTNode) (alt : Option (List ASTNode)) :
    eval_node (n + 1) st (.IfStatement c cons alt)
      = Except.bind (eval_if_statement n st c cons alt)
          (fun st' => .ok (st', none)) := rfl

theorem eval_binary_step (n : Nat) (st st1 st2 : SymbolTable)
    (l r : ASTNode) (op : TokenType) (ls rs : Symbol)
    (hl : eval_node n st l = .ok (st1, some ls))
    (hr : eval_node n st1 r = .ok (st2, some rs)) :
    eval_binary_expression (n + 1) st l op r
      = Except.bind
          (if isComparisonOp op then compare ls op rs
           else eval_math_expression ls op rs)
          (fun res => .ok (st2, some res)) := by
  simp only [eval_binary_expression, hl, hr, exceptBind_ok, bind]

theorem eval_binary_lit (n : Nat) (st : SymbolTable) (a : ℚ)
    (op : TokenType) (b : ℚ) :
    eval_binary_expression (n + 2) st (.Number a) op (.Number b)
      = Except.bind
          (if isComparisonOp op then compare (.Number a) op (.Number b)
           else eval_math_expression (.Number a) op (.Number b))
          (fun res => .ok (st, some res)) := rfl

theorem eval_math_carat (l r : ℚ) :
    eval_math_expression (.Number l) .Carat (.Number r)
      = .ok (.Number (powf l r)) := rfl

theorem eval_math_asterisk (l r : ℚ) :
    eval_math_expression (.Number l) .Asterisk (.Number r)
      = .ok (.Number (l * r)) := rfl

theorem eval_unary_step (n : Nat) (st st1 : SymbolTable) (e : ASTNode)
    (v : ℚ) (h : eval_node n st e = .ok (st1, some (.Number v))) :
    eval_unary_expression (n + 1) st e = .ok (st1, some (.Number (-v))) := by
  simp only [eval_unary_expression, h, exceptBind_ok, bind]

theorem evalLines_single (n : Nat) (st st' : SymbolTable) (node : ASTNode)
    (v : Option Symbol) (h : eval_node (n + 1) st node = .ok (st', v)) :
    evalLines (n + 2) st [node] = .ok (st', [v]) := by
  simp only [evalLines, h, exceptBind_ok, bind]

theorem eval_program (fuel : Nat) (st : SymbolTable) (lines : List ASTNode) :
    eval fuel st (.Program lines) = evalLines fuel st lines := rfl

/-! ## C1: operator associativity -/

theorem gp_close : get_precedence .CloseParenthesis = 0 := rfl

/-- C1 auxiliary: a chain `a op b op c` of a non-`^` binary operator parses
to a left-nested tree at the `expression` level. -/
theorem expr_tri_left (op : TokenType) (h0 : 0 < get_precedence op)
    (hc : op ≠ .Carat) (a b c : ℚ) (n : Nat) :
    expression (n + 8) 0 [.Decimal a, op, .Decimal b, op, .Decimal c]
      = .ok (.BinaryExpression
          (.BinaryExpression (.Number a) op (.Number b)) op (.Number c), []) := by
  have hne : op ≠ .EOF := fun h => by subst h; simp [get_precedence] at h0
  have hnl : op ≠ .Newline := fun h => by subst h; simp [get_precedence] at h0
  have hp : get_precedence op ≠ 0 := Nat.pos_iff_ne_zero.mp h0
  simp only [expression_succ, pPrefix_decimal, expressionLoop_step, expressionLoop_stop,
    pInfix_cons, currTok_cons, currTok_nil, exceptBind_ok, h0, hc, hne, hnl, hp, gp_close,
    Nat.le_refl, Nat.zero_le, ne_eq, not_false_eq_true, reduceCtorEq, or_true, true_or,
    or_false, false_or, reduceIte, if_true, if_false, eq_self_iff_true, not_true_eq_false]

/-- C1 auxiliary: the explicitly parenthesized `(a op b) op c` parses to
the same left-nested tree. -/
theorem expr_tri_left_paren (op : TokenType) (h0 : 0 < get_precedence op)
    (hc : op ≠ .Carat) (a b c : ℚ) (n : Nat) :
    expression (n + 9) 0 [.OpenParenthesis, .Decimal a, op, .Decimal b,
        .CloseParenthesis, op, .Decimal c]
      = .ok (.BinaryExpression
          (.BinaryExpression (.Number a) op (.Number b)) op (.Number c), []) := by
  have hne : op ≠ .EOF := fun h => by subst h; simp [get_precedence] at h0
  have hnl : op ≠ .Newline := fun h => by subst h; simp [get_precedence] at h0
  have hp : get_precedence op ≠ 0 := Nat.pos_iff_ne_zero.mp h0
  have hin : ∀ m : Nat, expression (m + 5) 0
      [.Decimal a, op, .Decimal b, .CloseParenthesis, op, .Decimal c]
      = .ok (.BinaryExpression (.Number a) op (.Number b),
          [.CloseParenthesis, op, .Decimal c]) := fun m => by
    simp only [expression_succ, pPrefix_decimal, expressionLoop_step, expressionLoop_stop,
      pInfix_cons, currTok_cons, currTok_nil, exceptBind_ok, h0, hc, hne, hnl, hp, gp_close,
      Nat.le_refl, Nat.zero_le, ne_eq, not_false_eq_true, reduceCtorEq, or_true, true_or,
      or_false, false_or, reduceIte, if_true, if_false, eq_self_iff_true, not_true_eq_false]
  have hpar : pPrefix (n + 8) [.OpenParenthesis, .Decimal a, op, .Decimal b,
      .CloseParenthesis, op, .Decimal c]
      = .ok (.BinaryExpression (.Number a) op (.Number b), [op, .Decimal c]) := by
    simp only [pPrefix_paren, parenthesized_expression_cons, hin (n + 1), exceptBind_ok,
      eat_self .CloseParenthesis _ (by decide)]
  simp only [expression_succ, hpar, exceptBind_ok, expressionLoop_step, expressionLoop_stop,
    pInfix_cons, pPrefix_decimal, currTok_cons, currTok_nil, h0, hc, hne, hnl, hp, gp_close,
    Nat.le_refl, Nat.zero_le, ne_eq, not_false_eq_true, reduceCtorEq, or_true, true_or,
    or_false, false_or, reduceIte, if_true, if_false, eq_self_iff_true, not_true_eq_false]

/-- C1 auxiliary: a `^` chain parses right-nested: the parser recurses into
the right operand with precedence `5 - 1 = 4`, and `^`'s own precedence 5
re-enters the loop there. -/
theorem expr_tri_carat (a b c : ℚ) (n : Nat) :
    expression (n + 8) 0 [.Decimal a, .Carat, .Decimal b, .Carat, .Decimal c]
      = .ok (.BinaryExpression (.Number a) .Carat
          (.BinaryExpression (.Number b) .Carat (.Number c)), []) := by
  simp only [expression_succ, pPrefix_decimal, pPrefix_integer, pPrefix_minus, pPrefix_paren,
    expressionLoop_step, expressionLoop_stop, pInfix_cons, parenthesized_expression_cons,
    unary_expression_cons, eat_self, currTok_cons, currTok_nil, get_precedence,
    exceptBind_ok, exceptBind_err, exceptPure, Nat.reduceLT, Nat.reduceLeDiff, Nat.reduceSub,
    reduceCtorEq, ne_eq, not_false_eq_true, reduceIte, Nat.le_refl, or_true, true_or,
    or_false, false_or, if_true, if_false, eq_self_iff_true, not_true_eq_false]

/-- C1 auxiliary: the `2 ^ 3 ^ 2` token stream (integer literals) parses
right-nested. -/
theorem expr_512 (n : Nat) :
    expression (n + 8) 0 [.Integer 2, .Carat, .Integer 3, .Carat, .Integer 2]
      = .ok (.BinaryExpression (.Number 2) .Carat
          (.BinaryExpression (.Number 3) .Carat (.Number 2)), []) := by
  simp only [expression_succ, pPrefix_decimal, pPrefix_integer, pPrefix_minus, pPrefix_paren,
    expressionLoop_step, expressionLoop_stop, pInfix_cons, parenthesized_expression_cons,
    unary_expression_cons, eat_self, currTok_cons, currTok_nil, get_precedence,
    exceptBind_ok, exceptBind_err, exceptPure, Nat.reduceLT, Nat.reduceLeDiff, Nat.reduceSub,
    reduceCtorEq, ne_eq, not_false_eq_true, reduceIte, Nat.le_refl, or_true, true_or,
    or_false, false_or, if_true, if_false, eq_self_iff_true, not_true_eq_false]
  norm_num

/-- C1 auxiliary: `a op b op c` at the `program` level. -/
theorem parse_tri_left (op : TokenType) (h0 : 0 < get_precedence op)
    (hc : op ≠ .Carat) (a b c : ℚ) (n : Nat) :
    program (n + 11) [.Decimal a, op, .Decimal b, op, .Decimal c]
      = .ok (.Program [.BinaryExpression
          (.BinaryExpression (.Number a) op (.Number b)) op (.Number c)], []) := by
  have hq : op ≠ .Equals := fun h => by subst h; simp [get_precedence] at h0
  exact program_single_expr (n + 6) _ _ (by simp [currTok_cons])
    (by simp [currTok_cons]) (by simp [lookahead0_cons, hq]) (by simp [currTok_cons])
    (expr_tri_left op h0 hc a b c n)

/-- C1 auxiliary: `(a op b) op c` at the `program` level. -/
theorem parse_tri_left_paren (op : TokenType) (h0 : 0 < get_precedence op)
    (hc : op ≠ .Carat) (a b c : ℚ) (n : Nat) :
    program (n + 12) [.OpenParenthesis, .Decimal a, op, .Decimal b,
        .CloseParenthesis, op, .Decimal c]
      = .ok (.Program [.BinaryExpression
          (.BinaryExpression (.Number a) op (.Number b)) op (.Number c)], []) :=
  program_single_expr (n + 7) _ _ (by simp [currTok_cons])
    (by simp [currTok_cons]) (by simp [lookahead0_cons]) (by simp [currTok_cons])
    (expr_tri_left_paren op h0 hc a b c n)

/-- C1 auxiliary: `a ^ b ^ c` at the `program` level. -/
theorem parse_tri_carat (a b c : ℚ) (n : Nat) :
    program (n + 11) [.Decimal a, .Carat, .Decimal b, .Carat, .Decimal c]
      = .ok (.Program [.BinaryExpression (.Number a) .Carat
          (.BinaryExpression (.Number b) .Carat (.Number c))], []) :=
  program_single_expr (n + 6) _ _ (by simp [currTok_cons])
    (by simp [currTok_cons]) (by simp [lookahead0_cons]) (by simp [currTok_cons])
    (expr_tri_carat a b c n)

/-- C1 auxiliary: evaluating the right-nested `2 ^ (3 ^ 2)` tree gives
512. -/
theorem eval_tree_512 (n : Nat) (st : SymbolTable) :
    eval_node (n + 5) st (.BinaryExpression (.Number 2) .Carat
        (.BinaryExpression (.Number 3) .Carat (.Number 2)))
      = .ok (st, some (.Number 512)) := by
  have h32 : powf 3 2 = 9 := by norm_num [powf]
  have h29 : powf 2 9 = 512 := by norm_num [powf]
  have hinner : eval_node (n + 3) st
      (.BinaryExpression (.Number 3) .Carat (.Number 2))
      = .ok (st, some (.Number 9)) := by
    rw [eval_node_binary, eval_binary_lit]
    simp only [isComparisonOp, Bool.false_eq_true, if_false, ite_false, eval_math_carat, exceptBind_ok, h32]
  have houter := eval_binary_step (n + 3) st st st (.Number 2)
    (.BinaryExpression (.Number 3) .Carat (.Number 2)) .Carat (.Number 2)
    (.Number 9) (eval_node_number (n + 2) st 2) hinner
  rw [eval_node_binary, houter]
  simp only [isComparisonOp, Bool.false_eq_true, if_false, ite_false, eval_math_carat, exceptBind_ok, h29]

/-- C1 auxiliary: the whole pipeline on `2 ^ 3 ^ 2` yields 512. -/
theorem parse_eval_512 (n : Nat) :
    parseAndEval (n + 11) [.Integer 2, .Carat, .Integer 3, .Carat, .Integer 2]
      = .ok (.ok [some (.Number 512)]) := by
  have hp : program (n + 11) [.Integer 2, .Carat, .Integer 3, .Carat, .Integer 2]
      = .ok (.Program [.BinaryExpression (.Number 2) .Carat
          (.BinaryExpression (.Number 3) .Carat (.Number 2))], []) :=
    program_single_expr (n + 6) _ _ (by simp [currTok_cons])
      (by simp [currTok_cons]) (by simp [lookahead0_cons]) (by simp [currTok_cons])
      (expr_512 n)
  have he : eval (n + 11) SymbolTable.new (.Program [.BinaryExpression (.Number 2) .Carat
        (.BinaryExpression (.Number 3) .Carat (.Number 2))])
      = .ok (SymbolTable.new, [some (.Number 512)]) := by
    rw [eval_program]
    exact evalLines_single (n + 9) _ _ _ _ (eval_tree_512 (n + 5) SymbolTable.new)
  simp only [parseAndEval, hp, he]

/-- C1: the parser resolves `^` right-associatively (recursing into the
right operand with precedence one less than `^`'s own, per `Parser::infix`)
and every other binary operator (`+ - * /`) left-associatively (recursing
with the operator's own precedence): an `a op b op c` chain of `+ - * /`
parses to the same left-nested tree as the explicitly parenthesized
`(a op b) op c` — hence evaluates identically — while a `^` chain parses
right-nested, and parsing and evaluating `2 ^ 3 ^ 2` yields 512
(`2 ^ (3 ^ 2)`), not 64. -/
theorem binary_operator_associativity :
    (∀ op, (op = .Plus ∨ op = .Minus ∨ op = .Asterisk ∨ op = .ForwardSlash) →
      ∀ a b c : ℚ, ∀ n : Nat,
        program (n + 11) [.Decimal a, op, .Decimal b, op, .Decimal c]
          = .ok (.Program [.BinaryExpression
              (.BinaryExpression (.Number a) op (.Number b)) op (.Number c)], []) ∧
        program (n + 12) [.OpenParenthesis, .Decimal a, op, .Decimal b,
            .CloseParenthesis, op, .Decimal c]
          = .ok (.Program [.BinaryExpression
              (.BinaryExpression (.Number a) op (.Number b)) op (.Number c)], [])) ∧
    (∀ a b c : ℚ, ∀ n : Nat,
      program (n + 11) [.Decimal a, .Carat, .Decimal b, .Carat, .Decimal c]
        = .ok (.Program [.BinaryExpression (.Number a) .Carat
            (.BinaryExpression (.Number b) .Carat (.Number c))], [])) ∧
    (∀ n : Nat,
      parseAndEval (n + 11) [.Integer 2, .Carat, .Integer 3, .Carat, .Integer 2]
        = .ok (.ok [some (.Number 512)])) := by
  refine ⟨fun op hop a b c n => ?_, parse_tri_carat, parse_eval_512⟩
  have h0 : 0 < get_precedence op := by
    rcases hop with h | h | h | h <;> subst h <;> decide
  have hc : op ≠ .Carat := by
    rcases hop with h | h | h | h <;> subst h <;> decide
  exact ⟨parse_tri_left op h0 hc a b c n, parse_tri_left_paren op h0 hc a b c n⟩

/-- Witness for C1 at `op := +`, `a := 1`, `b := 2`, `c := 3`, fuel 11. -/
theorem binary_operator_associativity_witness :
    program 11 [.Decimal 1, .Plus, .Decimal 2, .Plus, .Decimal 3]
      = .ok (.Program [.BinaryExpression
          (.BinaryExpression (.Number 1) .Plus (.Number 2)) .Plus (.Number 3)], []) :=
  (binary_operator_associativity.1 .Plus (Or.inl rfl) 1 2 3 0).1

/-! ## C2: unary minus precedence -/

/-- C2 auxiliary: `- a ^ b` parses with the negation outside the
exponentiation (`^`'s precedence 5 exceeds the unary floor 4). -/
theorem expr_minus_carat (a b : ℚ) (n : Nat) :
    expression (n + 8) 0 [.Minus, .Decimal a, .Carat, .Decimal b]
      = .ok (.UnaryExpression
          (.BinaryExpression (.Number a) .Carat (.Number b)), []) := by
  simp only [expression_succ, pPrefix_decimal, pPrefix_minus, unary_expression_cons,
    expressionLoop_step, expressionLoop_stop, pInfix_cons, currTok_cons, currTok_nil,
    get_precedence, exceptBind_ok, exceptPure, Nat.reduceLT, Nat.reduceLeDiff,
    Nat.reduceSub, reduceCtorEq, ne_eq, not_false_eq_true, reduceIte, Nat.le_refl,
    or_true, true_or, or_false, false_or, if_true, if_false, eq_self_iff_true,
    not_true_eq_false]

/-- C2 auxiliary: `- a op b` for an operator of precedence at most 4
parses with the negation applied to `a` only. -/
theorem expr_minus_op (op : TokenType) (h0 : 0 < get_precedence op)
    (hle : get_precedence op ≤ 4) (hc : op ≠ .Carat) (a b : ℚ) (n : Nat) :
    expression (n + 8) 0 [.Minus, .Decimal a, op, .Decimal b]
      = .ok (.BinaryExpression
          (.UnaryExpression (.Number a)) op (.Number b), []) := by
  have hne : op ≠ .EOF := fun h => by subst h; simp [get_precedence] at h0
  have hnl : op ≠ .Newline := fun h => by subst h; simp [get_precedence] at h0
  have hp : get_precedence op ≠ 0 := Nat.pos_iff_ne_zero.mp h0
  simp only [expression_succ, pPrefix_decimal, pPrefix_minus, unary_expression_cons,
    expressionLoop_step, expressionLoop_stop, pInfix_cons, currTok_cons, currTok_nil,
    exceptBind_ok, exceptPure, h0, hle, hc, hne, hnl, hp, gp_close, Nat.le_refl,
    Nat.zero_le, ne_eq, not_false_eq_true, reduceCtorEq, or_true, true_or, or_false,
    false_or, reduceIte, if_true, if_false, eq_self_iff_true, not_true_eq_false]

/-- C2 auxiliary: `- a ^ b` at the `program` level. -/
theorem parse_minus_carat (a b : ℚ) (n : Nat) :
    program (n + 11) [.Minus, .Decimal a, .Carat, .Decimal b]
      = .ok (.Program [.UnaryExpression
          (.BinaryExpression (.Number a) .Carat (.Number b))], []) :=
  program_single_expr (n + 6) _ _ (by simp [currTok_cons])
    (by simp [currTok_cons]) (by simp [lookahead0_cons]) (by simp [currTok_cons])
    (expr_minus_carat a b n)

/-- C2 auxiliary: `- a op b` at the `program` level. -/
theorem parse_minus_op (op : TokenType) (h0 : 0 < get_precedence op)
    (hle : get_precedence op ≤ 4) (hc : op ≠ .Carat) (a b : ℚ) (n : Nat) :
    program (n + 11) [.Minus, .Decimal a, op, .Decimal b]
      = .ok (.Program [.BinaryExpression
          (.UnaryExpression (.Number a)) op (.Number b)], []) :=
  program_single_expr (n + 6) _ _ (by simp [currTok_cons])
    (by simp [currTok_cons]) (by simp [lookahead0_cons]) (by simp [currTok_cons])
    (expr_minus_op op h0 hle hc a b n)

/-- C2 auxiliary: the `- 2 ^ 2` token stream (integer literals) parses as
the negation of `2 ^ 2`. -/
theorem expr_neg4 (n : Nat) :
    expression (n + 8) 0 [.Minus, .Integer 2, .Carat, .Integer 2]
      = .ok (.UnaryExpression
          (.BinaryExpression (.Number 2) .Carat (.Number 2)), []) := by
  simp only [expression_succ, pPrefix_integer, pPrefix_minus, unary_expression_cons,
    expressionLoop_step, expressionLoop_stop, pInfix_cons, currTok_cons, currTok_nil,
    get_precedence, exceptBind_ok, exceptPure, Nat.reduceLT, Nat.reduceLeDiff,
    Nat.reduceSub, reduceCtorEq, ne_eq, not_false_eq_true, reduceIte, Nat.le_refl,
    or_true, true_or, or_false, false_or, if_true, if_false, eq_self_iff_true,
    not_true_eq_false]
  norm_num

/-- C2 auxiliary: the `- 2 * 3` token stream (integer literals) parses as
`(-2) * 3`. -/
theorem expr_neg6 (n : Nat) :
    expression (n + 8) 0 [.Minus, .Integer 2, .Asterisk, .Integer 3]
      = .ok (.BinaryExpression
          (.UnaryExpression (.Number 2)) .Asterisk (.Number 3), []) := by
  simp only [expression_succ, pPrefix_integer, pPrefix_minus, unary_expression_cons,
    expressionLoop_step, expressionLoop_stop, pInfix_cons, currTok_cons, currTok_nil,
    get_precedence, exceptBind_ok, exceptPure, Nat.reduceLT, Nat.reduceLeDiff,
    Nat.reduceSub, reduceCtorEq, ne_eq, not_false_eq_true, reduceIte, Nat.le_refl,
    or_true, true_or, or_false, false_or, if_true, if_false, eq_self_iff_true,
    not_true_eq_false]
  norm_num

/-- C2 auxiliary: evaluating the `-(2 ^ 2)` tree gives `-4`. -/
theorem eval_tree_neg4 (n : Nat) (st : SymbolTable) :
    eval_node (n + 5) st (.UnaryExpression
        (.BinaryExpression (.Number 2) .Carat (.Number 2)))
      = .ok (st, some (.Number (-4))) := by
  have h22 : powf 2 2 = 4 := by norm_num [powf]
  have hb : eval_node (n + 3) st (.BinaryExpression (.Number 2) .Carat (.Number 2))
      = .ok (st, some (.Number 4)) := by
    rw [eval_node_binary, eval_binary_lit]
    simp only [isComparisonOp, Bool.false_eq_true, if_false, ite_false,
      eval_math_carat, exceptBind_ok, h22]
  rw [eval_node_unary]
  exact eval_unary_step (n + 3) st st _ 4 hb

/-- C2 auxiliary: evaluating the `(-2) * 3` tree gives `-6`. -/
theorem eval_tree_neg6 (n : Nat) (st : SymbolTable) :
    eval_node (n + 5) st (.BinaryExpression
        (.UnaryExpression (.Number 2)) .Asterisk (.Number 3))
      = .ok (st, some (.Number (-6))) := by
  have hl : eval_node (n + 3) st (.UnaryExpression (.Number 2))
      = .ok (st, some (.Number (-2))) := by
    rw [eval_node_unary]
    exact eval_unary_step (n + 2) st st _ 2 (eval_node_number (n + 1) st 2)
  have houter := eval_binary_step (n + 3) st st st
    (.UnaryExpression (.Number 2)) (.Number 3) .Asterisk (.Number (-2))
    (.Number 3) hl (eval_node_number (n + 2) st 3)
  rw [eval_node_binary, houter]
  simp only [isComparisonOp, Bool.false_eq_true, if_false, ite_false,
    eval_math_asterisk, exceptBind_ok]
  norm_num

/-- C2 auxiliary: the whole pipeline on `- 2 ^ 2` yields `-4`. -/
theorem parse_eval_neg4 (n : Nat) :
    parseAndEval (n + 11) [.Minus, .Integer 2, .Carat, .Integer 2]
      = .ok (.ok [some (.Number (-4))]) := by
  have hp : program (n + 11) [.Minus, .Integer 2, .Carat, .Integer 2]
      = .ok (.Program [.UnaryExpression
          (.BinaryExpression (.Number 2) .Carat (.Number 2))], []) :=
    program_single_expr (n + 6) _ _ (by simp [currTok_cons])
      (by simp [currTok_cons]) (by simp [lookahead0_cons]) (by simp [currTok_cons])
      (expr_neg4 n)
  have he : eval (n + 11) SymbolTable.new (.Program [.UnaryExpression
        (.BinaryExpression (.Number 2) .Carat (.Number 2))])
      = .ok (SymbolTable.new, [some (.Number (-4))]) := by
    rw [eval_program]
    exact evalLines_single (n + 9) _ _ _ _ (eval_tree_neg4 (n + 5) SymbolTable.new)
  simp only [parseAndEval, hp, he]

/-- C2 auxiliary: the whole pipeline on `- 2 * 3` yields `-6`. -/
theorem parse_eval_neg6 (n : Nat) :
    parseAndEval (n + 11) [.Minus, .Integer 2, .Asterisk, .Integer 3]
      = .ok (.ok [some (.Number (-6))]) := by
  have hp : program (n + 11) [.Minus, .Integer 2, .Asterisk, .Integer 3]
      = .ok (.Program [.BinaryExpression
          (.UnaryExpression (.Number 2)) .Asterisk (.Number 3)], []) :=
    program_single_expr (n + 6) _ _ (by simp [currTok_cons])
      (by simp [currTok_cons]) (by simp [lookahead0_cons]) (by simp [currTok_cons])
      (expr_neg6 n)
  have he : eval (n + 11) SymbolTable.new (.Program [.BinaryExpression
        (.UnaryExpression (.Number 2)) .Asterisk (.Number 3)])
      = .ok (SymbolTable.new, [some (.Number (-6))]) := by
    rw [eval_program]
    exact evalLines_single (n + 9) _ _ _ _ (eval_tree_neg6 (n + 5) SymbolTable.new)
  simp only [parseAndEval, hp, he]

/-- C2: unary minus parses its operand at precedence floor 4
(`Parser::unary_expression`), which is lower than `^` (5) but higher than
`*`, `/` (3) and `+`, `-` (2): for all numbers `a b`, `- a ^ b` parses as
`-(a ^ b)` while `- a op b` parses as `(-a) op b` for the other four
operators, and the pipeline evaluates `- 2 ^ 2` to `-4` (negation applied
after exponentiation) and `- 2 * 3` to `-6` (`(-2) * 3`, not `-(2 * 3)`). -/
theorem unary_minus_precedence :
    (∀ a b : ℚ, ∀ n : Nat,
      program (n + 11) [.Minus, .Decimal a, .Carat, .Decimal b]
        = .ok (.Program [.UnaryExpression
            (.BinaryExpression (.Number a) .Carat (.Number b))], [])) ∧
    (∀ op, (op = .Plus ∨ op = .Minus ∨ op = .Asterisk ∨ op = .ForwardSlash) →
      ∀ a b : ℚ, ∀ n : Nat,
        program (n + 11) [.Minus, .Decimal a, op, .Decimal b]
          = .ok (.Program [.BinaryExpression
              (.UnaryExpression (.Number a)) op (.Number b)], [])) ∧
    (∀ n : Nat, parseAndEval (n + 11) [.Minus, .Integer 2, .Carat, .Integer 2]
      = .ok (.ok [some (.Number (-4))])) ∧
    (∀ n : Nat, parseAndEval (n + 11) [.Minus, .Integer 2, .Asterisk, .Integer 3]
      = .ok (.ok [some (.Number (-6))])) := by
  refine ⟨parse_minus_carat, fun op hop a b n => ?_, parse_eval_neg4, parse_eval_neg6⟩
  have h0 : 0 < get_precedence op := by
    rcases hop with h | h | h | h <;> subst h <;> decide
  have hle : get_precedence op ≤ 4 := by
    rcases hop with h | h | h | h <;> subst h <;> decide
  have hc : op ≠ .Carat := by
    rcases hop with h | h | h | h <;> subst h <;> decide
  exact parse_minus_op op h0 hle hc a b n

/-- Witness for C2 at `op := *`, `a := 2`, `b := 3`, fuel 11. -/
theorem unary_minus_precedence_witness :
    program 11 [.Minus, .Decimal 2, .Asterisk, .Decimal 3]
      = .ok (.Program [.BinaryExpression
          (.UnaryExpression (.Number 2)) .Asterisk (.Number 3)], []) :=
  unary_minus_precedence.2.1 .Asterisk (Or.inr (Or.inr (Or.inl rfl))) 2 3 0

/-! ## C3: `return` inside an `if` consequence -/

/-- Counterexample to C3: in a function whose body is an `if` (truthy
condition) whose consequence is a `ReturnStatement` followed by another
statement, the statement after the `return` IS evaluated: here it is an
ill-typed comparison, so the whole evaluation aborts with a type-mismatch
error instead of the call completing.  Under the claim the `return` would
have terminated the consequence's statement list and the program would
have evaluated without error.  (The AST is built directly because the
parser has no rule producing `IfStatement`.) -/
theorem return_in_if_counterexample :
    eval 24 SymbolTable.new (.Program [
      .FunctionExpression "f" [
        .IfStatement (.Number 1)
          [ .ReturnExpression (.Number 5),
            .BinaryExpression
              (.BinaryExpression (.Number 1) .LessThan (.Number 1))
              .DoubleEquals (.Number 1) ]
          none ] [],
      .FunctionCall "f" [] ])
      = .error .typeMismatch := rfl

/-- C3 amended: a `ReturnStatement` inside an `if` consequence is a no-op:
`eval_node` has no `ReturnExpression` arm, so its expression is not
evaluated and it yields no value; it does not terminate the consequence's
statement list (evaluation continues with the following statements), and it
does not propagate out of the enclosing function call (here the call
returns 7 from the body's top-level `return`, not 5 from the `return`
inside the `if`). -/
theorem return_in_if_is_noop :
    (∀ n : Nat, ∀ st : SymbolTable, ∀ e : ASTNode,
      eval_node (n + 1) st (.ReturnExpression e) = .ok (st, none)) ∧
    (∀ n : Nat, ∀ st : SymbolTable, ∀ e : ASTNode, ∀ rest : List ASTNode,
      eval_statement_list (n + 1) st (.ReturnExpression e :: rest)
        = eval_statement_list n st rest) ∧
    (eval 24 SymbolTable.new (.Program [
        .FunctionExpression "f" [
          .IfStatement (.Number 1) [.ReturnExpression (.Number 5)] none,
          .ReturnExpression (.Number 7) ] [],
        .FunctionCall "f" [] ])
      = .ok ([[("f", .Function "f" [
          .IfStatement (.Number 1) [.ReturnExpression (.Number 5)] none,
          .ReturnExpression (.Number 7)] [])]], [none, some (.Number 7)])) := by
  refine ⟨fun n st e => rfl, fun n st e rest => ?_, rfl⟩
  cases n <;> rfl

/-! ## C4: calling a non-function binding -/

/-- Counterexample to C4: the program `x = 1` then `x()` — a call whose
name resolves to a `Number` binding — evaluates without any error: both
statements succeed and produce no value.  There is no `NotCallableError`
in the evaluator; `eval_function_call` silently returns `None` for a
non-function binding (`src/ast/evaluator.rs` lines 109–112). -/
theorem call_non_function_counterexample :
    parseAndEval 32 [.Identifier "x", .Equals, .Integer 1, .Newline,
      .Identifier "x", .OpenParenthesis, .CloseParenthesis]
      = .ok (.ok [none, none]) := rfl

/-- C4 amended: when a call-site name resolves in the environment to a
binding that is not a function value, the call silently produces no value
and leaves the environment unchanged — it does not fail. -/
theorem call_non_function_silently_skipped (n : Nat) (st : SymbolTable)
    (name : String) (args : List Symbol) (sym : Symbol)
    (hget : tableGet st name = .ok sym)
    (hfn : ∀ f body a, sym ≠ .Function f body a) :
    eval_function_call (n + 1) st name args = .ok (st, none) := by
  cases sym with
  | Function f body a => exact absurd rfl (hfn f body a)
  | Number v => simp only [eval_function_call, hget, exceptBind_ok, bind]
  | Boolean b => simp only [eval_function_call, hget, exceptBind_ok, bind]
  | Variable v => simp only [eval_function_call, hget, exceptBind_ok, bind]

/-- Witness for C4's amended theorem: calling `x` bound to the number 1. -/
theorem call_non_function_silently_skipped_witness :
    eval_function_call 5 [[("x", .Number 1)]] "x" []
      = .ok ([[("x", .Number 1)]], none) :=
  call_non_function_silently_skipped 4 [[("x", .Number 1)]] "x" []
    (.Number 1) rfl (fun f body a h => Symbol.noConfusion h)

/-! ## C5: statement separation and trailing newlines -/

/-- Counterexample to C5: the claim says the parser accepts a function
body's last statement without a trailing newline before the closing brace,
but `Parser::statement_list` eats a `Newline` after every statement unless
the current token is `EOF`; on `func foo() {\n x = 1 }` (no newline before
`}`) it finds `}` where it expects a newline and fails. -/
theorem trailing_newline_counterexample :
    program 32 [.Identifier "func", .Identifier "foo", .OpenParenthesis,
      .CloseParenthesis, .OpenBraces, .Newline,
      .Identifier "x", .Equals, .Integer 1, .CloseBraces]
      = .error .unexpectedToken := rfl

/-- C5 amended: statements are separated by single newline tokens and a
statement list ends at end-of-input or a closing brace, but a newline IS
required after the last statement of a brace-terminated body (the parser
eats a newline after every statement unless at end-of-input); only at
end-of-input is no trailing newline required. -/
theorem statement_list_termination :
    (∀ n : Nat, ∀ ts : List TokenType, currTok ts = .CloseBraces →
      statement_list (n + 1) ts = .ok ([], ts)) ∧
    (∀ n : Nat, ∀ ts : List TokenType, currTok ts = .EOF →
      statement_list (n + 1) ts = .ok ([], ts)) ∧
    (program 32 [.Identifier "func", .Identifier "foo", .OpenParenthesis,
        .CloseParenthesis, .OpenBraces, .Newline,
        .Identifier "x", .Equals, .Integer 1, .Newline, .CloseBraces]
      = .ok (.Program [.FunctionExpression "foo"
          [.VariableExpression "x" (.Number 1)] []], [])) ∧
    (program 32 [.Identifier "x", .Equals, .Integer 1]
      = .ok (.Program [.VariableExpression "x" (.Number 1)], [])) :=
  ⟨fun n ts h => statement_list_nil n ts (Or.inr h),
   fun n ts h => statement_list_nil n ts (Or.inl h),
   rfl, rfl⟩

/-- Witness for C5's amended theorem: statement lists stop at `}` and at
end-of-input. -/
theorem statement_list_termination_witness :
    statement_list 5 [.CloseBraces] = .ok ([], [.CloseBraces]) ∧
    statement_list 5 [] = .ok ([], []) :=
  ⟨statement_list_termination.1 4 [.CloseBraces] rfl,
   statement_list_termination.2.1 4 [] rfl⟩

/-! ## Scope-stack preservation

The key environment invariant behind C6 and C8: every evaluator function
leaves the scopes below the innermost one untouched (inserts go to the
innermost scope only, and every pushed scope is popped exactly once), and
a function call restores the caller's scope stack exactly. -/

theorem tableInsert_cons (s : Scope) (rest : SymbolTable) (name : String)
    (v : Symbol) :
    tableInsert (s :: rest) name v = scopeInsert s name v :: rest := rfl

theorem pop_scope_cons (s s2 : Scope) (rest : SymbolTable) :
    pop_scope (s :: s2 :: rest) = .ok (s2 :: rest) := rfl

theorem pop_scope_ok (s : Scope) (rest : SymbolTable) (st' : SymbolTable)
    (h : pop_scope (s :: rest) = .ok st') : st' = rest := by
  cases rest with
  | nil => exact absurd h (by simp [pop_scope])
  | cons s2 rs =>
    rw [pop_scope_cons] at h
    exact (Except.ok.injEq _ _).mp h.symm

theorem foldl_tableInsert_head (ps : List (String × Symbol)) :
    ∀ (s : Scope) (rest : SymbolTable),
    ∃ s', ps.foldl (fun t p => tableInsert t p.1 p.2) (s :: rest)
      = s' :: rest := by
  induction ps with
  | nil => exact fun s rest => ⟨s, rfl⟩
  | cons p ps ih =>
    intro s rest
    rw [List.foldl_cons, tableInsert_cons]
    exact ih (scopeInsert s p.1 p.2) rest

theorem push_function_shape (st : SymbolTable) (declArgs : List String)
    (callArgs : List Symbol) (st1 : SymbolTable)
    (h : push_function st declArgs callArgs = .ok st1) :
    ∃ s, st1 = s :: st := by
  unfold push_function at h
  cases hr : resolveArgs st (declArgs.zip callArgs) with
  | error e => rw [hr] at h; exact absurd h (by simp [bind, exceptBind_err])
  | ok resolved =>
    rw [hr] at h
    simp only [bind, exceptBind_ok, Except.ok.injEq] at h
    obtain ⟨s', hs'⟩ := foldl_tableInsert_head resolved [] st
    exact ⟨s', h ▸ (by rw [push_scope] at *; exact hs')⟩

theorem scope_tail (fuel : Nat) :
    (∀ s rest node st' v, eval_node fuel (s :: rest) node = .ok (st', v) →
      ∃ s', st' = s' :: rest)
  ∧ (∀ s rest l st', eval_statement_list fuel (s :: rest) l = .ok st' →
      ∃ s', st' = s' :: rest)
  ∧ (∀ s rest c cons alt st',
      eval_if_statement fuel (s :: rest) c cons alt = .ok st' →
      ∃ s', st' = s' :: rest)
  ∧ (∀ st name args st' v,
      eval_function_call fuel st name args = .ok (st', v) → st' = st)
  ∧ (∀ s rest body st' v, eval_call_body fuel (s :: rest) body = .ok (st', v) →
      st' = rest)
  ∧ (∀ s rest name rhs st',
      eval_variable_statement fuel (s :: rest) name rhs = .ok st' →
      ∃ s', st' = s' :: rest)
  ∧ (∀ s rest e st' v, eval_unary_expression fuel (s :: rest) e = .ok (st', v) →
      ∃ s', st' = s' :: rest)
  ∧ (∀ s rest l op r st' v,
      eval_binary_expression fuel (s :: rest) l op r = .ok (st', v) →
      ∃ s', st' = s' :: rest) := by
  induction fuel with
  | zero =>
    refine ⟨?_, ?_, ?_, ?_, ?_, ?_, ?_, ?_⟩ <;> intros <;>
      simp_all [eval_node, eval_statement_list, eval_if_statement,
        eval_function_call, eval_call_body, eval_variable_statement,
        eval_unary_expression, eval_binary_expression]
  | succ n ih =>
    obtain ⟨ihN, ihL, ihI, ihF, ihB, ihV, ihU, ihBE⟩ := ih
    refine ⟨?_, ?_, ?_, ?_, ?_, ?_, ?_, ?_⟩
    -- eval_node
    · intro s rest node st' v h
      cases node with
      | BinaryExpression l op r => exact ihBE s rest l op r st' v h
      | UnaryExpression e => exact ihU s rest e st' v h
      | VariableExpression name val =>
        simp only [eval_node] at h
        cases hv : eval_variable_statement n (s :: rest) name val with
        | error e => rw [hv] at h; exact Except.noConfusion h
        | ok stv =>
          rw [hv] at h
          simp only [bind, exceptBind_ok, Except.ok.injEq, Prod.mk.injEq] at h
          obtain ⟨s', hs'⟩ := ihV s rest name val stv hv
          exact ⟨s', h.1 ▸ hs'⟩
      | Variable name =>
        simp only [eval_node] at h
        cases hg : tableGet (s :: rest) name with
        | error e => rw [hg] at h; exact Except.noConfusion h
        | ok v' =>
          rw [hg] at h
          simp only [bind, exceptBind_ok, Except.ok.injEq, Prod.mk.injEq] at h
          exact ⟨s, h.1.symm⟩
      | FunctionExpression name body args =>
        simp only [eval_node, tableInsert_cons, Except.ok.injEq,
          Prod.mk.injEq] at h
        exact ⟨scopeInsert s name (.Function name body args), h.1.symm⟩
      | FunctionCall name args =>
        exact ⟨s, (ihF (s :: rest) name args st' v h).symm ▸ rfl⟩
      | IfStatement c cons alt =>
        simp only [eval_node] at h
        cases hi : eval_if_statement n (s :: rest) c cons alt with
        | error e => rw [hi] at h; exact Except.noConfusion h
        | ok sti =>
          rw [hi] at h
          simp only [bind, exceptBind_ok, Except.ok.injEq, Prod.mk.injEq] at h
          obtain ⟨s', hs'⟩ := ihI s rest c cons alt sti hi
          exact ⟨s', h.1 ▸ hs'⟩
      | Program l =>
        simp only [eval_node, Except.ok.injEq, Prod.mk.injEq] at h
        exact ⟨s, h.1.symm⟩
      | ReturnExpression e =>
        simp only [eval_node, Except.ok.injEq, Prod.mk.injEq] at h
        exact ⟨s, h.1.symm⟩
      | Number q =>
        simp only [eval_node, Except.ok.injEq, Prod.mk.injEq] at h
        exact ⟨s, h.1.symm⟩
      | Boolean b =>
        simp only [eval_node, Except.ok.injEq, Prod.mk.injEq] at h
        exact ⟨s, h.1.symm⟩
      | StringNode t =>
        simp only [eval_node, Except.ok.injEq, Prod.mk.injEq] at h
        exact ⟨s, h.1.symm⟩
      | BlockStatement l =>
        simp only [eval_node, Except.ok.injEq, Prod.mk.injEq] at h
        exact ⟨s, h.1.symm⟩
      | Command l =>
        simp only [eval_node, Except.ok.injEq, Prod.mk.injEq] at h
        exact ⟨s, h.1.symm⟩
    -- eval_statement_list
    · intro s rest l st' h
      cases l with
      | nil =>
        simp only [eval_statement_list, Except.ok.injEq] at h
        exact ⟨s, h.symm⟩
      | cons node l' =>
        simp only [eval_statement_list] at h
        cases he : eval_node n (s :: rest) node with
        | error e => rw [he] at h; exact Except.noConfusion h
        | ok p =>
          rw [he] at h
          simp only [bind, exceptBind_ok] at h
          obtain ⟨s1, hs1⟩ := ihN s rest node p.1 p.2 (by rw [he])
          rw [hs1] at h
          exact ihL s1 rest l' st' h
    -- eval_if_statement
    · intro s rest c cons alt st' h
      simp only [eval_if_statement] at h
      cases hc : eval_node n (s :: rest) c with
      | error e => rw [hc] at h; exact Except.noConfusion h
      | ok p =>
        rw [hc] at h
        simp only [bind, exceptBind_ok] at h
        obtain ⟨s1, hs1⟩ := ihN s rest c p.1 p.2 (by rw [hc])
        cases htr : truthy p.2 with
        | false => simp only [htr, if_false, Bool.false_eq_true,
            Except.ok.injEq] at h; exact ⟨s1, h ▸ hs1⟩
        | true =>
          simp only [htr, if_true] at h
          cases hsl : eval_statement_list n (push_scope p.1) cons with
          | error e => rw [hsl] at h; exact Except.noConfusion h
          | ok st2 =>
            rw [hsl] at h
            simp only [bind, exceptBind_ok] at h
            rw [hs1] at hsl
            obtain ⟨s2, hs2⟩ := ihL [] (s1 :: rest) cons st2 hsl
            rw [hs2] at h
            exact ⟨s1, pop_scope_ok s2 (s1 :: rest) st' h⟩
    -- eval_function_call
    · intro st name args st' v h
      simp only [eval_function_call] at h
      cases hg : tableGet st name with
      | error e => rw [hg] at h; exact Except.noConfusion h
      | ok sym =>
        rw [hg] at h
        simp only [bind, exceptBind_ok] at h
        cases sym with
        | Number q =>
          simp only [Except.ok.injEq, Prod.mk.injEq] at h; exact h.1.symm
        | Boolean b =>
          simp only [Except.ok.injEq, Prod.mk.injEq] at h; exact h.1.symm
        | Variable w =>
          simp only [Except.ok.injEq, Prod.mk.injEq] at h; exact h.1.symm
        | Function fname body declArgs =>
          dsimp only at h
          cases hv : validate_function_call args fname declArgs with
          | error e => rw [hv] at h; exact Except.noConfusion h
          | ok u =>
            rw [hv] at h
            simp only [bind, exceptBind_ok] at h
            cases hp : push_function st declArgs args with
            | error e => rw [hp] at h; exact Except.noConfusion h
            | ok st1 =>
              rw [hp] at h
              simp only [bind, exceptBind_ok] at h
              obtain ⟨sc, hsc⟩ := push_function_shape st declArgs args st1 hp
              rw [hsc] at h
              exact ihB sc st body st' v h
    -- eval_call_body
    · intro s rest body st' v h
      cases body with
      | nil =>
        simp only [eval_call_body] at h
        cases hp : pop_scope (s :: rest) with
        | error e => rw [hp] at h; exact Except.noConfusion h
        | ok st2 =>
          rw [hp] at h
          simp only [bind, exceptBind_ok, Except.ok.injEq, Prod.mk.injEq] at h
          exact h.1 ▸ pop_scope_ok s rest st2 hp
      | cons line body' =>
        cases hline : isReturnStatement line with
        | true =>
          cases line <;>
            simp only [isReturnStatement, Bool.false_eq_true] at hline
          case ReturnExpression e =>
            simp only [eval_call_body] at h
            cases he : eval_node n (s :: rest) e with
            | error err => rw [he] at h; exact Except.noConfusion h
            | ok p =>
              rw [he] at h
              simp only [bind, exceptBind_ok] at h
              obtain ⟨s1, hs1⟩ := ihN s rest e p.1 p.2 (by rw [he])
              rw [hs1] at h
              cases hp : pop_scope (s1 :: rest) with
              | error err => rw [hp] at h; exact Except.noConfusion h
              | ok st2 =>
                rw [hp] at h
                simp only [bind, exceptBind_ok, Except.ok.injEq,
                  Prod.mk.injEq] at h
                exact h.1 ▸ pop_scope_ok s1 rest st2 hp
        | false =>
          have hstep : eval_call_body (n + 1) (s :: rest) (line :: body')
              = Except.bind (eval_node n (s :: rest) line)
                  (fun p => eval_call_body n p.1 body') := by
            cases line <;>
              simp only [isReturnStatement, Bool.true_eq_false] at hline <;>
              simp only [eval_call_body] <;> rfl
          rw [hstep] at h
          cases he : eval_node n (s :: rest) line with
          | error err => rw [he] at h; exact Except.noConfusion h
          | ok p =>
            rw [he] at h
            simp only [exceptBind_ok] at h
            obtain ⟨s1, hs1⟩ := ihN s rest line p.1 p.2 (by rw [he])
            rw [hs1] at h
            exact ihB s1 rest body' st' v h
    -- eval_variable_statement
    · intro s rest name rhs st' h
      simp only [eval_variable_statement] at h
      cases he : eval_node n (s :: rest) rhs with
      | error e => rw [he] at h; exact Except.noConfusion h
      | ok p =>
        obtain ⟨st1, res⟩ := p
        rw [he] at h
        simp only [bind, exceptBind_ok] at h
        obtain ⟨s1, hs1⟩ := ihN s rest rhs st1 res he
        subst hs1
        cases res with
        | some val =>
          simp only [tableInsert_cons, Except.ok.injEq] at h
          exact ⟨scopeInsert s1 name val, h.symm⟩
        | none =>
          simp only [Except.ok.injEq] at h
          exact ⟨s1, h.symm⟩
    -- eval_unary_expression
    · intro s rest e st' v h
      simp only [eval_unary_expression] at h
      cases he : eval_node n (s :: rest) e with
      | error err => rw [he] at h; exact Except.noConfusion h
      | ok p =>
        obtain ⟨st1, res⟩ := p
        rw [he] at h
        simp only [bind, exceptBind_ok] at h
        obtain ⟨s1, hs1⟩ := ihN s rest e st1 res he
        subst hs1
        cases res with
        | none =>
          simp only [Except.ok.injEq, Prod.mk.injEq] at h
          exact ⟨s1, h.1.symm⟩
        | some sym =>
          cases sym <;>
            simp only [Except.ok.injEq, Prod.mk.injEq] at h <;>
            exact ⟨s1, h.1.symm⟩
    -- eval_binary_expression
    · intro s rest l op r st' v h
      simp only [eval_binary_expression] at h
      cases hl : eval_node n (s :: rest) l with
      | error err => rw [hl] at h; exact Except.noConfusion h
      | ok p =>
        obtain ⟨st1, lres⟩ := p
        rw [hl] at h
        simp only [bind, exceptBind_ok] at h
        obtain ⟨s1, hs1⟩ := ihN s rest l st1 lres hl
        subst hs1
        cases lres with
        | none =>
          simp only [Except.ok.injEq, Prod.mk.injEq] at h
          exact ⟨s1, h.1.symm⟩
        | some ls =>
          cases hr : eval_node n (s1 :: rest) r with
          | error err =>
            simp only [hr, bind, exceptBind_err] at h
            exact Except.noConfusion h
          | ok q =>
            obtain ⟨st2, rres⟩ := q
            rw [hr] at h
            simp only [bind, exceptBind_ok] at h
            obtain ⟨s2, hs2⟩ := ihN s1 rest r st2 rres hr
            subst hs2
            cases rres with
            | none =>
              simp only [Except.ok.injEq, Prod.mk.injEq] at h
              exact ⟨s2, h.1.symm⟩
            | some rs =>
              cases hcmp : (if isComparisonOp op then compare ls op rs
                  else eval_math_expression ls op rs) with
              | error err =>
                simp only [hcmp, bind, exceptBind_err] at h
                exact Except.noConfusion h
              | ok res =>
                simp only [hcmp, bind, exceptBind_ok, Except.ok.injEq,
                  Prod.mk.injEq] at h
                exact ⟨s2, h.1.symm⟩

/-! ## C6: function-call return behaviour -/

/-- The body loop steps over a non-`return` statement. -/
theorem eval_call_body_cons_not_ret (n : Nat) (st : SymbolTable)
    (line : ASTNode) (rest : List ASTNode)
    (h : isReturnStatement line = false) :
    eval_call_body (n + 1) st (line :: rest)
      = Except.bind (eval_node n st line)
          (fun p => eval_call_body n p.1 rest) := by
  cases line <;> simp only [isReturnStatement, Bool.true_eq_false] at h <;>
    simp only [eval_call_body] <;> rfl

/-- Statements after a `ReturnStatement` in a function body are never
evaluated: the body loop's result does not depend on them. -/
theorem eval_call_body_post_irrelevant (pre : List ASTNode) :
    ∀ (fuel : Nat) (st : SymbolTable) (e : ASTNode) (post : List ASTNode),
    eval_call_body fuel st (pre ++ .ReturnExpression e :: post)
      = eval_call_body fuel st (pre ++ [.ReturnExpression e]) := by
  induction pre with
  | nil =>
    intro fuel st e post
    cases fuel with
    | zero => rfl
    | succ n => rfl
  | cons x pre' ih =>
    intro fuel st e post
    cases fuel with
    | zero => rfl
    | succ n =>
      cases hline : isReturnStatement x with
      | true =>
        cases x <;> simp only [isReturnStatement, Bool.false_eq_true] at hline
        rfl
      | false =>
        rw [List.cons_append, List.cons_append,
          eval_call_body_cons_not_ret n st x _ hline,
          eval_call_body_cons_not_ret n st x _ hline]
        cases he : eval_node n st x with
        | error err => rfl
        | ok p =>
          simp only [he, exceptBind_ok]
          exact ih n p.1 e post

/-- A body with no top-level `ReturnStatement` yields no value. -/
theorem eval_call_body_no_return (body : List ASTNode) :
    ∀ (fuel : Nat) (st st' : SymbolTable) (v : Option Symbol),
    (∀ x ∈ body, isReturnStatement x = false) →
    eval_call_body fuel st body = .ok (st', v) → v = none := by
  induction body with
  | nil =>
    intro fuel st st' v _ h
    cases fuel with
    | zero => exact Except.noConfusion h
    | succ n =>
      simp only [eval_call_body] at h
      cases hp : pop_scope st with
      | error e => rw [hp] at h; exact Except.noConfusion h
      | ok st2 =>
        rw [hp] at h
        simp only [bind, exceptBind_ok, Except.ok.injEq, Prod.mk.injEq] at h
        exact h.2.symm
  | cons x body' ih =>
    intro fuel st st' v hall h
    cases fuel with
    | zero => exact Except.noConfusion h
    | succ n =>
      rw [eval_call_body_cons_not_ret n st x body'
        (hall x (List.mem_cons_self x body'))] at h
      cases he : eval_node n st x with
      | error err => rw [he] at h; exact Except.noConfusion h
      | ok p =>
        rw [he] at h
        simp only [exceptBind_ok] at h
        exact ih n p.1 st' v (fun y hy => hall y (List.mem_cons_of_mem x hy)) h

/-- C6: evaluation of a function body stops at the first top-level
`ReturnStatement`: statements after it are never evaluated (the body
loop's result is independent of them); reaching a top-level return
evaluates its expression, pops the function scope once and returns that
value; a body with no top-level return yields no value; and in all cases a
successful call returns to the caller with the caller's scope stack
restored exactly (the function's scope was popped exactly once). -/
theorem function_call_return_behavior :
    (∀ (pre : List ASTNode) (fuel : Nat) (st : SymbolTable) (e : ASTNode)
        (post : List ASTNode),
      eval_call_body fuel st (pre ++ .ReturnExpression e :: post)
        = eval_call_body fuel st (pre ++ [.ReturnExpression e])) ∧
    (∀ (n : Nat) (st : SymbolTable) (e : ASTNode) (rest : List ASTNode),
      eval_call_body (n + 1) st (.ReturnExpression e :: rest)
        = Except.bind (eval_node n st e)
            (fun p => Except.bind (pop_scope p.1)
              (fun st2 => .ok (st2, p.2)))) ∧
    (∀ (body : List ASTNode) (fuel : Nat) (st st' : SymbolTable)
        (v : Option Symbol),
      (∀ x ∈ body, isReturnStatement x = false) →
      eval_call_body fuel st body = .ok (st', v) → v = none) ∧
    (∀ (fuel : Nat) (st : SymbolTable) (name : String) (args : List Symbol)
        (st' : SymbolTable) (v : Option Symbol),
      eval_function_call fuel st name args = .ok (st', v) → st' = st) :=
  ⟨eval_call_body_post_irrelevant, fun n st e rest => rfl,
   eval_call_body_no_return,
   fun fuel => (scope_tail fuel).2.2.2.1⟩

/-- Witness for C6: a body consisting of one assignment (no top-level
return) yields no value, and a concrete successful call leaves the
caller's table unchanged. -/
theorem function_call_return_behavior_witness :
    (eval_call_body 4 [[], []] [.VariableExpression "x" (.Number 1)]
      = .ok ([[]], none) ∧ (none : Option Symbol) = none) ∧
    (eval_function_call 10 [[("f", .Function "f" [] [])]] "f" []
      = .ok ([[("f", .Function "f" [] [])]], none) ∧
     ([[("f", .Function "f" [] [])]] : SymbolTable)
       = [[("f", .Function "f" [] [])]]) :=
  ⟨⟨rfl, function_call_return_behavior.2.2.1
      [.VariableExpression "x" (.Number 1)] 4 [[], []] [[]] none
      (by intro x hx; simp at hx; subst hx; rfl) rfl⟩,
   ⟨rfl, function_call_return_behavior.2.2.2 10
      [[("f", .Function "f" [] [])]] "f" []
      [[("f", .Function "f" [] [])]] none rfl⟩⟩

/-! ## C7: function-call arity -/

theorem zip_take_self {α β : Type} :
    ∀ (l1 : List α) (l2 : List β), l1.zip (l2.take l1.length) = l1.zip l2 := by
  intro l1
  induction l1 with
  | nil => intro l2; rfl
  | cons x xs ih =>
    intro l2
    cases l2 with
    | nil => rfl
    | cons y ys =>
      simp only [List.length_cons, List.take_succ_cons, List.zip_cons_cons]
      rw [ih ys]

/-- C7: a call supplying fewer arguments than the function's declared
parameters fails with the arity error; a call supplying at least as many
behaves exactly like the call truncated to the declared parameter count —
each declared parameter is bound positionally (`push_function` zips the
declared names with the call arguments) and extra arguments are silently
ignored. -/
theorem function_call_arity :
    (∀ (n : Nat) (st : SymbolTable) (name : String) (args : List Symbol)
        (fname : String) (body : List ASTNode) (declArgs : List String),
      tableGet st name = .ok (.Function fname body declArgs) →
      args.length < declArgs.length →
      eval_function_call (n + 1) st name args = .error (.arity fname)) ∧
    (∀ (fuel : Nat) (st : SymbolTable) (name : String) (args : List Symbol)
        (fname : String) (body : List ASTNode) (declArgs : List String),
      tableGet st name = .ok (.Function fname body declArgs) →
      declArgs.length ≤ args.length →
      eval_function_call fuel st name args
        = eval_function_call fuel st name (args.take declArgs.length)) := by
  constructor
  · intro n st name args fname body declArgs hget hlt
    simp only [eval_function_call, hget, exceptBind_ok, bind]
    simp only [validate_function_call, if_pos hlt, exceptBind_err, bind]
  · intro fuel st name args fname body declArgs hget hle
    cases fuel with
    | zero => rfl
    | succ n =>
      simp only [eval_function_call, hget, exceptBind_ok, bind]
      have hv1 : validate_function_call args fname declArgs = .ok () := by
        simp only [validate_function_call, if_neg (Nat.not_lt.mpr hle)]
      have hv2 : validate_function_call (args.take declArgs.length) fname
          declArgs = .ok () := by
        simp only [validate_function_call, List.length_take,
          Nat.min_eq_left hle, if_neg (Nat.lt_irrefl declArgs.length)]
      rw [hv1, hv2]
      simp only [exceptBind_ok]
      unfold push_function
      rw [zip_take_self declArgs args]

/-- Witness for C7: `f(a)` called with no arguments fails with the arity
error; called with two arguments it behaves like the one-argument call. -/
theorem function_call_arity_witness :
    (eval_function_call 5 [[("f", .Function "f" [] ["a"])]] "f" []
      = .error (.arity "f")) ∧
    (eval_function_call 5 [[("f", .Function "f" [] ["a"])]] "f"
        [.Number 1, .Number 2]
      = eval_function_call 5 [[("f", .Function "f" [] ["a"])]] "f"
        [.Number 1]) :=
  ⟨function_call_arity.1 4 [[("f", .Function "f" [] ["a"])]] "f" []
      "f" [] ["a"] rfl (by decide),
   function_call_arity.2 5 [[("f", .Function "f" [] ["a"])]] "f"
      [.Number 1, .Number 2] "f" [] ["a"] rfl (by decide)⟩

/-! ## C8: if-statement semantics -/

/-- C8: the `if` condition is truthy exactly when it evaluates to a
nonzero number or the boolean `true` (anything else, including no value,
is falsy); a falsy condition skips the body entirely (in particular the
alternative branch is never evaluated — the whole statement is independent
of the alternative); a truthy condition runs the consequence in a freshly
pushed scope that is popped afterwards, so bindings made inside do not
leak (the table after the `if` equals the table right after the condition
was evaluated); and an `IfStatement` never yields a value. -/
theorem if_statement_semantics :
    (∀ res : Option Symbol, truthy res = true ↔
      ((∃ num, res = some (.Number num) ∧ num ≠ 0) ∨
        res = some (.Boolean true))) ∧
    (∀ (n : Nat) (st : SymbolTable) (c : ASTNode) (cons : List ASTNode)
        (alt : Option (List ASTNode)) (st1 : SymbolTable)
        (res : Option Symbol),
      eval_node n st c = .ok (st1, res) → truthy res = false →
      eval_if_statement (n + 1) st c cons alt = .ok st1) ∧
    (∀ (n : Nat) (st : SymbolTable) (c : ASTNode) (cons : List ASTNode)
        (alt : Option (List ASTNode)) (st1 : SymbolTable)
        (res : Option Symbol),
      eval_node n st c = .ok (st1, res) → truthy res = true →
      eval_if_statement (n + 1) st c cons alt
        = Except.bind (eval_statement_list n (push_scope st1) cons)
            (fun st2 => pop_scope st2)) ∧
    (∀ (fuel : Nat) (st : SymbolTable) (c : ASTNode) (cons : List ASTNode)
        (alt alt' : Option (List ASTNode)),
      eval_if_statement fuel st c cons alt
        = eval_if_statement fuel st c cons alt') ∧
    (∀ (n : Nat) (st : SymbolTable) (c : ASTNode) (cons : List ASTNode)
        (alt : Option (List ASTNode)) (st1 : SymbolTable)
        (res : Option Symbol) (st' : SymbolTable),
      eval_node n st c = .ok (st1, res) → truthy res = true →
      eval_if_statement (n + 1) st c cons alt = .ok st' → st' = st1) ∧
    (∀ (n : Nat) (st : SymbolTable) (c : ASTNode) (cons : List ASTNode)
        (alt : Option (List ASTNode)) (st' : SymbolTable)
        (v : Option Symbol),
      eval_node (n + 1) st (.IfStatement c cons alt) = .ok (st', v) →
      v = none) := by
  refine ⟨?_, ?_, ?_, ?_, ?_, ?_⟩
  · intro res
    cases res with
    | none => simp [truthy]
    | some sym => cases sym <;> simp [truthy]
  · intro n st c cons alt st1 res hc hf
    simp only [eval_if_statement, hc, exceptBind_ok, bind, hf,
      Bool.false_eq_true, if_false, ite_false]
  · intro n st c cons alt st1 res hc ht
    simp only [eval_if_statement, hc, exceptBind_ok, bind, ht, if_true]
  · intro fuel st c cons alt alt'
    cases fuel with
    | zero => rfl
    | succ n => rfl
  · intro n st c cons alt st1 res st' hc ht h
    simp only [eval_if_statement, hc, exceptBind_ok, bind, ht, if_true] at h
    cases hsl : eval_statement_list n (push_scope st1) cons with
    | error e => rw [hsl] at h; exact Except.noConfusion h
    | ok st2 =>
      rw [hsl] at h
      simp only [exceptBind_ok] at h
      obtain ⟨s2, hs2⟩ := ((scope_tail n).2.1) [] st1 cons st2 hsl
      rw [hs2] at h
      exact pop_scope_ok s2 st1 st' h
  · intro n st c cons alt st' v h
    simp only [eval_node] at h
    cases hi : eval_if_statement n st c cons alt with
    | error e => rw [hi] at h; exact Except.noConfusion h
    | ok sti =>
      rw [hi] at h
      simp only [bind, exceptBind_ok, Except.ok.injEq, Prod.mk.injEq] at h
      exact h.2.symm

/-- Witness for C8: a falsy condition (the number 0) skips the body; a
truthy condition (the number 1) runs the consequence in a scope whose
bindings do not leak: the table after the `if` equals the table after the
condition. -/
theorem if_statement_semantics_witness :
    (truthy (some (.Number 0)) = false ∧
     eval_if_statement 6 [[]] (.Number 0)
        [.VariableExpression "x" (.Number 5)] none = .ok [[]]) ∧
    (truthy (some (.Number 1)) = true ∧
     ([[]] : SymbolTable) = [[]]) :=
  ⟨⟨rfl, if_statement_semantics.2.1 5 [[]] (.Number 0)
      [.VariableExpression "x" (.Number 5)] none [[]]
      (some (.Number 0)) rfl rfl⟩,
   ⟨rfl, if_statement_semantics.2.2.2.2.1 5 [[]] (.Number 1)
      [.VariableExpression "x" (.Number 5)] none [[]]
      (some (.Number 1)) [[]] rfl rfl rfl⟩⟩

/-! ## C9: comparison typing -/

/-- C9: `ASTEvaluator::compare` supports all five comparison operators on
two numbers, yielding a boolean; on two booleans it supports only `==` and
panics on the other four; and on operands of different runtime kinds it
always panics with a type mismatch, never coercing.  Moreover
`eval_binary_expression` routes every comparison operator on two operands
evaluating to numbers through `compare`, surfacing the boolean. -/
theorem comparison_typing :
    (∀ a b : ℚ,
      compare (.Number a) .DoubleEquals (.Number b)
          = .ok (.Boolean (decide (a = b))) ∧
      compare (.Number a) .GreaterThan (.Number b)
          = .ok (.Boolean (decide (a > b))) ∧
      compare (.Number a) .LessThan (.Number b)
          = .ok (.Boolean (decide (a < b))) ∧
      compare (.Number a) .GreaterThanOrEqualTo (.Number b)
          = .ok (.Boolean (decide (a ≥ b))) ∧
      compare (.Number a) .LessThanOrEqualTo (.Number b)
          = .ok (.Boolean (decide (a ≤ b)))) ∧
    (∀ x y : Bool,
      compare (.Boolean x) .DoubleEquals (.Boolean y)
        = .ok (.Boolean (decide (x = y)))) ∧
    (∀ (x y : Bool) (op : TokenType), isComparisonOp op = true →
      op ≠ .DoubleEquals →
      compare (.Boolean x) op (.Boolean y) = .error .compareBooleans) ∧
    (∀ (a : ℚ) (y : Bool) (op : TokenType),
      compare (.Number a) op (.Boolean y) = .error .typeMismatch) ∧
    (∀ (x : Bool) (b : ℚ) (op : TokenType),
      compare (.Boolean x) op (.Number b) = .error .typeMismatch) ∧
    (∀ (n : Nat) (st st1 st2 : SymbolTable) (l r : ASTNode) (op : TokenType)
        (a b : ℚ),
      isComparisonOp op = true →
      eval_node n st l = .ok (st1, some (.Number a)) →
      eval_node n st1 r = .ok (st2, some (.Number b)) →
      ∃ c, compare (.Number a) op (.Number b) = .ok c ∧
        eval_binary_expression (n + 1) st l op r = .ok (st2, some c)) := by
  refine ⟨fun a b => ⟨rfl, rfl, rfl, rfl, rfl⟩, fun x y => rfl, ?_, ?_, ?_, ?_⟩
  · intro x y op hco hne
    cases op <;> simp only [isComparisonOp, Bool.false_eq_true] at hco <;>
      first
        | exact absurd rfl hne
        | rfl
  · intro a y op; rfl
  · intro x b op; rfl
  · intro n st st1 st2 l r op a b hco hl hr
    have hbe := eval_binary_step n st st1 st2 l r op (.Number a) (.Number b)
      hl hr
    rw [if_pos hco] at hbe
    cases op <;> simp only [isComparisonOp, Bool.false_eq_true] at hco <;>
      exact ⟨_, rfl, by rw [hbe]; rfl⟩

/-- Witness for C9: booleans reject `<`; a number-vs-number `<` dispatched
through a binary expression yields a boolean. -/
theorem comparison_typing_witness :
    (compare (.Boolean true) .LessThan (.Boolean false)
      = .error .compareBooleans) ∧
    (∃ c, compare (.Number 2) .LessThan (.Number 3) = .ok c ∧
      eval_binary_expression 2 [[]] (.Number 2) .LessThan (.Number 3)
        = .ok ([[]], some c)) :=
  ⟨comparison_typing.2.2.1 true false .LessThan rfl (by decide),
   comparison_typing.2.2.2.2.2 1 [[]] [[]] [[]] (.Number 2) (.Number 3)
     .LessThan 2 3 rfl rfl rfl⟩

/-! ## C10: no `IfStatement` and no comparison operator in parsed ASTs -/

/-- Peel one monadic bind off a successful `Except` computation. -/
theorem bind_ok_elim {α β : Type} {x : Except ParseErr α}
    {f : α → Except ParseErr β} {b : β}
    (h : Except.bind x f = .ok b) : ∃ a, x = .ok a ∧ f a = .ok b := by
  cases x with
  | error e => exact Except.noConfusion h
  | ok a => exact ⟨a, rfl, h⟩

/-- `pure` into `Except` is `Except.ok`. -/
theorem pure_eq_ok {α : Type} (a : α) :
    (pure a : Except ParseErr α) = Except.ok a := rfl

/-- A token with positive precedence is not a comparison operator:
comparison operators all have precedence 0. -/
theorem gp_pos_not_comp (t : TokenType) (h : 0 < get_precedence t) :
    isComparisonOp t = false := by
  cases t <;> simp_all [get_precedence, isComparisonOp]

/-- `Parser::variable_statement` only builds `Variable` nodes. -/
theorem variable_statement_good (ts : List TokenType) (ast : ASTNode)
    (ts' : List TokenType) (h : variable_statement ts = .ok (ast, ts')) :
    goodNode ast = true := by
  unfold variable_statement at h
  cases he : eat_identifier ts with
  | error e => rw [he] at h; exact Except.noConfusion h
  | ok p =>
    rw [he] at h
    simp only [Except.ok.injEq, Prod.mk.injEq] at h
    rw [← h.1]
    rfl

/-- The parser invariant behind C10, proved for every parser function by
induction on fuel: every node any of them returns satisfies `goodNode` —
no grammar rule constructs an `IfStatement`, and `infix` is only reached
through the precedence-climbing loop, whose guard
`precedence < get_precedence(current)` rules out the precedence-0
comparison operators. -/
theorem parser_good (fuel : Nat) :
    (∀ ts ast ts', program fuel ts = .ok (ast, ts') → goodNode ast = true)
  ∧ (∀ ts l ts', statement_list fuel ts = .ok (l, ts') → goodList l = true)
  ∧ (∀ ts ast ts', statement fuel ts = .ok (ast, ts') → goodNode ast = true)
  ∧ (∀ prec ts ast ts', expression fuel prec ts = .ok (ast, ts') →
      goodNode ast = true)
  ∧ (∀ prec left ts ast ts', goodNode left = true →
      expressionLoop fuel prec left ts = .ok (ast, ts') → goodNode ast = true)
  ∧ (∀ left op ts ast ts', goodNode left = true → isComparisonOp op = false →
      pInfix fuel left op ts = .ok (ast, ts') → goodNode ast = true)
  ∧ (∀ ts ast ts', pPrefix fuel ts = .ok (ast, ts') → goodNode ast = true)
  ∧ (∀ ts ast ts', variable_expression fuel ts = .ok (ast, ts') →
      goodNode ast = true)
  ∧ (∀ ts ast ts', function_expression fuel ts = .ok (ast, ts') →
      goodNode ast = true)
  ∧ (∀ ts ast ts', parenthesized_expression fuel ts = .ok (ast, ts') →
      goodNode ast = true)
  ∧ (∀ ts ast ts', return_expression fuel ts = .ok (ast, ts') →
      goodNode ast = true)
  ∧ (∀ ts ast ts', function_call fuel ts = .ok (ast, ts') →
      goodNode ast = true)
  ∧ (∀ ts args ts', function_call_args fuel ts = .ok (args, ts') →
      goodSymbolList args = true)
  ∧ (∀ ts args ts', function_call_args_loop fuel ts = .ok (args, ts') →
      goodSymbolList args = true)
  ∧ (∀ ts ast ts', unary_expression fuel ts = .ok (ast, ts') →
      goodNode ast = true) := by
  induction fuel with
  | zero =>
    refine ⟨?_, ?_, ?_, ?_, ?_, ?_, ?_, ?_, ?_, ?_, ?_, ?_, ?_, ?_, ?_⟩ <;>
      intros <;>
      simp_all [program, statement_list, statement, expression, expressionLoop,
        pInfix, pPrefix, variable_expression, function_expression,
        parenthesized_expression, return_expression, function_call,
        function_call_args, function_call_args_loop, unary_expression]
  | succ n ih =>
    obtain ⟨ihProg, ihSL, ihStmt, ihExpr, ihLoop, ihInfix, ihPrefix, ihVE,
      ihFE, ihPar, ihRet, ihFC, ihFCA, ihFCAL, ihUn⟩ := ih
    refine ⟨?_, ?_, ?_, ?_, ?_, ?_, ?_, ?_, ?_, ?_, ?_, ?_, ?_, ?_, ?_⟩
    -- program
    · intro ts ast ts' h
      simp only [program] at h
      obtain ⟨⟨l, ts1⟩, hsl, h⟩ := bind_ok_elim h
      simp only [Except.ok.injEq, Prod.mk.injEq] at h
      rw [← h.1]
      exact ihSL ts l ts1 hsl
    -- statement_list
    · intro ts l ts' h
      simp only [statement_list] at h
      split at h
      · obtain ⟨⟨s, ts1⟩, hs, h⟩ := bind_ok_elim h
        obtain ⟨ts2, _, h⟩ := bind_ok_elim h
        obtain ⟨⟨rest, ts3⟩, hrest, h⟩ := bind_ok_elim h
        simp only [Except.ok.injEq, Prod.mk.injEq] at h
        rw [← h.1]
        simp only [goodList, Bool.and_eq_true]
        exact ⟨ihStmt ts s ts1 hs, ihSL ts2 rest ts3 hrest⟩
      · simp only [Except.ok.injEq, Prod.mk.injEq] at h
        rw [← h.1]
        rfl
    -- statement
    · intro ts ast ts' h
      simp only [statement] at h
      split at h
      · exact ihVE ts ast ts' h
      · split at h
        · exact ihFE ts ast ts' h
        · exact ihExpr 0 ts ast ts' h
    -- expression
    · intro prec ts ast ts' h
      simp only [expression] at h
      obtain ⟨⟨left, ts1⟩, hp, h⟩ := bind_ok_elim h
      exact ihLoop prec left ts1 ast ts' (ihPrefix ts left ts1 hp) h
    -- expressionLoop
    · intro prec left ts ast ts' hgl h
      simp only [expressionLoop] at h
      split at h
      next hcond =>
        obtain ⟨⟨l', ts1⟩, hinf, h⟩ := bind_ok_elim h
        have hco : isComparisonOp (currTok ts) = false :=
          gp_pos_not_comp (currTok ts)
            (Nat.lt_of_le_of_lt (Nat.zero_le prec) hcond.2.2)
        exact ihLoop prec l' ts1 ast ts'
          (ihInfix left (currTok ts) ts l' ts1 hgl hco hinf) h
      next hcond =>
        simp only [Except.ok.injEq, Prod.mk.injEq] at h
        rw [← h.1]
        exact hgl
    -- pInfix
    · intro left op ts ast ts' hgl hco h
      simp only [pInfix] at h
      obtain ⟨⟨t, ts1⟩, _, h⟩ := bind_ok_elim h
      obtain ⟨⟨right, ts2⟩, hre, h⟩ := bind_ok_elim h
      simp only [Except.ok.injEq, Prod.mk.injEq] at h
      rw [← h.1]
      simp [goodNode, hco, hgl,
        ihExpr (if op = .Carat then get_precedence op - 1
          else get_precedence op) ts1 right ts2 hre]
    -- pPrefix
    · intro ts ast ts' h
      simp only [pPrefix] at h
      cases hct : currTok ts
      case OpenParenthesis => exact ihPar ts ast ts' (by rw [hct] at h; exact h)
      case Minus => exact ihUn ts ast ts' (by rw [hct] at h; exact h)
      case Identifier ident =>
        rw [hct] at h
        dsimp only at h
        split at h
        · exact ihRet ts ast ts' h
        · split at h
          · exact ihFC ts ast ts' h
          · exact variable_statement_good ts ast ts' h
      all_goals (
        rw [hct] at h
        dsimp only at h
        obtain ⟨⟨t, ts2⟩, _, h⟩ := bind_ok_elim h
        cases t <;>
          first
            | exact Except.noConfusion h
            | (simp only [Except.ok.injEq, Prod.mk.injEq] at h
               rw [← h.1]
               rfl))
    -- variable_expression
    · intro ts ast ts' h
      simp only [variable_expression] at h
      obtain ⟨⟨name, ts1⟩, _, h⟩ := bind_ok_elim h
      obtain ⟨⟨t2, ts2⟩, _, h⟩ := bind_ok_elim h
      obtain ⟨⟨e, ts3⟩, he, h⟩ := bind_ok_elim h
      simp only [Except.ok.injEq, Prod.mk.injEq] at h
      rw [← h.1]
      exact ihExpr 0 ts2 e ts3 he
    -- function_expression
    · intro ts ast ts' h
      simp only [function_expression] at h
      obtain ⟨⟨t1, ts1⟩, _, h⟩ := bind_ok_elim h
      obtain ⟨⟨name, ts2⟩, _, h⟩ := bind_ok_elim h
      obtain ⟨⟨t3, ts3⟩, _, h⟩ := bind_ok_elim h
      obtain ⟨⟨fargs, ts4⟩, _, h⟩ := bind_ok_elim h
      obtain ⟨⟨t5, ts5⟩, _, h⟩ := bind_ok_elim h
      obtain ⟨⟨t6, ts6⟩, _, h⟩ := bind_ok_elim h
      obtain ⟨⟨t7, ts7⟩, _, h⟩ := bind_ok_elim h
      obtain ⟨⟨body, ts8⟩, hb, h⟩ := bind_ok_elim h
      obtain ⟨⟨t9, ts9⟩, _, h⟩ := bind_ok_elim h
      simp only [Except.ok.injEq, Prod.mk.injEq] at h
      rw [← h.1]
      exact ihSL ts7 body ts8 hb
    -- parenthesized_expression
    · intro ts ast ts' h
      simp only [parenthesized_expression] at h
      obtain ⟨⟨t1, ts1⟩, _, h⟩ := bind_ok_elim h
      obtain ⟨⟨e, ts2⟩, he, h⟩ := bind_ok_elim h
      obtain ⟨⟨t3, ts3⟩, _, h⟩ := bind_ok_elim h
      simp only [Except.ok.injEq, Prod.mk.injEq] at h
      rw [← h.1]
      exact ihExpr 0 ts1 e ts2 he
    -- return_expression
    · intro ts ast ts' h
      simp only [return_expression] at h
      obtain ⟨⟨t1, ts1⟩, _, h⟩ := bind_ok_elim h
      obtain ⟨⟨e, ts2⟩, he, h⟩ := bind_ok_elim h
      simp only [Except.ok.injEq, Prod.mk.injEq] at h
      rw [← h.1]
      exact ihExpr 0 ts1 e ts2 he
    -- function_call
    · intro ts ast ts' h
      simp only [function_call] at h
      obtain ⟨⟨fname, ts1⟩, _, h⟩ := bind_ok_elim h
      obtain ⟨⟨t2, ts2⟩, _, h⟩ := bind_ok_elim h
      obtain ⟨⟨args, ts3⟩, hargs, h⟩ := bind_ok_elim h
      obtain ⟨⟨t4, ts4⟩, _, h⟩ := bind_ok_elim h
      simp only [Except.ok.injEq, Prod.mk.injEq] at h
      rw [← h.1]
      exact ihFCA ts2 args ts3 hargs
    -- function_call_args
    · intro ts args ts' h
      simp only [function_call_args] at h
      split at h
      · simp only [Except.ok.injEq, Prod.mk.injEq] at h
        rw [← h.1]
        rfl
      · exact ihFCAL ts args ts' h
    -- function_call_args_loop
    · intro ts args ts' h
      simp only [function_call_args_loop] at h
      obtain ⟨⟨arg, ts1⟩, harg, h⟩ := bind_ok_elim h
      have hga : goodSymbol arg = true := by
        cases hct : currTok ts
        case Identifier ident =>
          rw [hct] at harg
          dsimp only at harg
          obtain ⟨⟨name, ts2⟩, _, harg⟩ := bind_ok_elim harg
          simp only [pure_eq_ok, Except.ok.injEq, Prod.mk.injEq] at harg
          rw [← harg.1]
          rfl
        all_goals (
          rw [hct] at harg
          dsimp only at harg
          obtain ⟨⟨t, ts2⟩, _, harg⟩ := bind_ok_elim harg
          cases t <;>
            first
              | exact Except.noConfusion harg
              | (simp only [pure_eq_ok, Except.ok.injEq,
                   Prod.mk.injEq] at harg
                 rw [← harg.1]
                 rfl))
      split at h
      · simp only [Except.ok.injEq, Prod.mk.injEq] at h
        rw [← h.1]
        simp [goodSymbolList, hga]
      · obtain ⟨⟨tc, ts2⟩, _, h⟩ := bind_ok_elim h
        obtain ⟨⟨rest, ts3⟩, hrest, h⟩ := bind_ok_elim h
        simp only [Except.ok.injEq, Prod.mk.injEq] at h
        rw [← h.1]
        simp [goodSymbolList, hga, ihFCAL ts2 rest ts3 hrest]
    -- unary_expression
    · intro ts ast ts' h
      simp only [unary_expression] at h
      obtain ⟨⟨t1, ts1⟩, _, h⟩ := bind_ok_elim h
      obtain ⟨⟨e, ts2⟩, he, h⟩ := bind_ok_elim h
      simp only [Except.ok.injEq, Prod.mk.injEq] at h
      rw [← h.1]
      simp [goodNode, ihExpr 4 ts1 e ts2 he]

/-- C10: every AST the parser returns contains no `IfStatement` node and no
`BinaryExpression` whose operator is a comparison operator (`== > < >= <=`),
anywhere — including inside function bodies (and hence inside any function
value the evaluator later stores): the parser has no rule constructing
`IfStatement`, and comparison operators have precedence 0, so they never
enter the precedence-climbing loop.  Consequently the evaluator's
comparison and if-statement branches cannot be reached from a parsed
program. -/
theorem parser_output_well_formed (fuel : Nat) (ts : List TokenType)
    (ast : ASTNode) (ts' : List TokenType)
    (h : program fuel ts = .ok (ast, ts')) : goodNode ast = true :=
  (parser_good fuel).1 ts ast ts' h

/-- Witness for C10 on the one-statement program `7`. -/
theorem parser_output_well_formed_witness :
    program 5 [.Integer 7] = .ok (.Program [.Number 7], []) ∧
    goodNode (.Program [.Number 7]) = true :=
  ⟨rfl, parser_output_well_formed 5 [.Integer 7] (.Program [.Number 7]) [] rfl⟩

end Orca
